import Mathlib

/-!
Verification development for the serialized-DAG codec in
src/airflow/serialization/serialized_objects.py.

Shallow embedding conventions:
* Wire values (the JSON-compatible output of _serialize and input of
  _deserialize) are the inductive type JVal.  Numbers are modelled as Int:
  the claims under study only concern whole-second timestamps and
  durations, so the float/Int distinction of Python is not modelled.
* Python runtime values reachable by the codec are the inductive type
  PyVal.  Enumerated scalars (enum.IntEnum etc.) are instances of their
  underlying primitive type in Python (the source comments on this at the
  _is_primitive branch), and Python structural equality identifies them
  with that primitive, so they are embedded directly as the primitive.
* Object identity (the Python `is` operator) matters only where the source
  uses it: attribute values of DAG / operator objects therefore carry a
  numeric object id next to the value (two attribute values are the same
  Python object exactly when their ids are equal).  The singleton None is
  modelled by the value pnone; identity on it is value equality.
* Exceptions are modelled with Except: a .error result is a raised
  exception, and an .ok result is a normal return.  A function returning a
  .error constructs no entity and leaves no partial result, matching a
  Python exception propagating out of the corresponding function.
* _deserialize mutates its input in one place (the relativedelta branch
  replaces the weekday entry of the caller-supplied payload dict with a
  constructed weekday object).  deser therefore returns, next to the
  decoded value, the post-call state of its input structure.  The graph
  and operator decoders return only values: no claim observes the
  post-call state of their payloads.
* Cyclic back-references (task.dag, subdag.parent_dag) cannot exist in a
  tree-shaped value model.  An operator carries a hasDag flag plus a
  snapshot of the owning-graph attributes that the encoder consults, and
  the parent_dag attribute written during decoding is modelled by the
  opaque marker pdagref.  No claim reads through these back-references.
-/

/-- Wire values: the JSON-compatible structures produced by _serialize.
jweekday is not JSON: it models the dateutil weekday object that the
relativedelta branch of _deserialize stores into the caller-supplied
payload dict in place (line 222 of the source). -/
inductive JVal where
  | jnull : JVal
  | jb (b : Bool) : JVal
  | ji (n : Int) : JVal
  | js (s : String) : JVal
  | jarr (elems : List JVal) : JVal
  | jobj (entries : List (String × JVal)) : JVal
  | jweekday (wd : Int) (n : Option Int) : JVal

/-- Entry list of a JSON object (a Python dict on the wire). -/
abbrev JObj := List (String × JVal)

/-- Dict lookup, first match: d[k] / d.get(k). -/
def lookupD : JObj → String → Option JVal
  | [], _ => none
  | (k, v) :: t, key => if k = key then some v else lookupD t key

/-- Python `key in d`. -/
def hasK (m : JObj) (key : String) : Bool :=
  (lookupD m key).isSome

/-- Python `d[k] = v`: replace the entry if the key is present, else append. -/
def jobjSet : JObj → String → JVal → JObj
  | [], key, v => [(key, v)]
  | (k, w) :: t, key, v =>
      if k = key then (k, v) :: t else (k, w) :: jobjSet t key v

/-- Fields of a dateutil relativedelta object (its public __dict__ entries).
The relative components default to 0, the absolute components and the
weekday to None.  Normalisation performed by the relativedelta constructor
is not modelled: constructed Python relativedeltas are already normalised
and the codec never denormalises one. -/
structure RD where
  years : Int := 0
  months : Int := 0
  days : Int := 0
  leapdays : Int := 0
  hours : Int := 0
  minutes : Int := 0
  seconds : Int := 0
  microseconds : Int := 0
  year : Option Int := none
  month : Option Int := none
  day : Option Int := none
  hour : Option Int := none
  minute : Option Int := none
  second : Option Int := none
  microsecond : Option Int := none
  weekday : Option (Int × Option Int) := none
deriving DecidableEq

/-- Python runtime values reachable by the codec.

pop is a BaseOperator: class name, module name, whether it is attached to
a DAG, a snapshot of the owning-DAG attributes (consulted by the encoder
through op.dag), and its own attribute dictionary.  pdag is a DAG with its
attribute dictionary.  Attribute entries are (name, object id, value).

pcallable is an invocable object; its src field is the result of source
retrieval (get_python_source): some text on success, none when retrieval
raises; its txt field is its display string str(var), which the callable
branch of the encoder never consults.  pother is any other object, with a flag marking membership in the
excluded-type tuple (logging.Logger, Connection, type) and the behaviour
of str() on it (strOk false: str raises).  pdagref marks a decoder-written
graph back-reference. -/
inductive PyVal where
  | pnone : PyVal
  | pbool (b : Bool) : PyVal
  | pint (n : Int) : PyVal
  | pstr (s : String) : PyVal
  | pdict (entries : List (String × PyVal)) : PyVal
  | plist (elems : List PyVal) : PyVal
  | pset (elems : List PyVal) : PyVal
  | ptuple (elems : List PyVal) : PyVal
  | pdatetime (ts : Int) : PyVal
  | ptimedelta (secs : Int) : PyVal
  | ptimezone (name : String) : PyVal
  | prdelta (r : RD) : PyVal
  | pop (className moduleName : String) (hasDag : Bool)
        (ownerAttrs : List (String × Nat × PyVal))
        (attrs : List (String × Nat × PyVal)) : PyVal
  | pdag (attrs : List (String × Nat × PyVal)) : PyVal
  | pcallable (src : Option String) (txt : String) : PyVal
  | pother (excludedType : Bool) (strOk : Bool) (txt : String) : PyVal
  | pdagref : PyVal

/-- Attribute dictionary of a DAG or operator: (name, object id, value). -/
abbrev Attrs := List (String × Nat × PyVal)

/-- getattr by name, first match. -/
def lookupA : Attrs → String → Option (Nat × PyVal)
  | [], _ => none
  | (k, o, v) :: t, key => if k = key then some (o, v) else lookupA t key

/-- setattr: replace the first entry with this name, else append.  Values
written by the decoder get object id 0 (no claim observes identity of
decoder-created objects). -/
def setA : Attrs → String → Nat → PyVal → Attrs
  | [], key, o, v => [(key, o, v)]
  | (k, o0, v0) :: t, key, o, v =>
      if k = key then (k, o, v) :: t else (k, o0, v0) :: setA t key o v

mutual
/-- Python structural equality (the == operator) on the modelled values.
The Python identification of booleans with the integers 0 and 1 is not
modelled; no claim compares a boolean with a number. -/
def pyBEq : PyVal → PyVal → Bool
  | .pnone, .pnone => true
  | .pbool a, .pbool b => a == b
  | .pint a, .pint b => a == b
  | .pstr a, .pstr b => a == b
  | .pdict a, .pdict b => pyBEqD a b
  | .plist a, .plist b => pyBEqL a b
  | .pset a, .pset b => pyBEqL a b
  | .ptuple a, .ptuple b => pyBEqL a b
  | .pdatetime a, .pdatetime b => a == b
  | .ptimedelta a, .ptimedelta b => a == b
  | .ptimezone a, .ptimezone b => a == b
  | .prdelta a, .prdelta b => a == b
  | .pcallable a1 a2, .pcallable b1 b2 => a1 == b1 && a2 == b2
  | .pother a1 a2 a3, .pother b1 b2 b3 => a1 == b1 && a2 == b2 && a3 == b3
  | .pdagref, .pdagref => true
  | .pop c1 m1 h1 ow1 at1, .pop c2 m2 h2 ow2 at2 =>
      c1 == c2 && m1 == m2 && h1 == h2 && pyBEqA ow1 ow2 && pyBEqA at1 at2
  | .pdag a1, .pdag a2 => pyBEqA a1 a2
  | _, _ => false
termination_by structural x => x
def pyBEqL : List PyVal → List PyVal → Bool
  | [], [] => true
  | a :: as1, b :: bs => pyBEq a b && pyBEqL as1 bs
  | _, _ => false
termination_by structural x => x
def pyBEqD : List (String × PyVal) → List (String × PyVal) → Bool
  | [], [] => true
  | (k1, v1) :: t1, (k2, v2) :: t2 => k1 == k2 && pyBEq v1 v2 && pyBEqD t1 t2
  | _, _ => false
termination_by structural x => x
def pyBEqA : Attrs → Attrs → Bool
  | [], [] => true
  | (k1, o1, v1) :: t1, (k2, o2, v2) :: t2 =>
      k1 == k2 && o1 == o2 && pyBEq v1 v2 && pyBEqA t1 t2
  | _, _ => false
termination_by structural x => x
end

/-- Python truth testing (bool(v) = False).  Containers are falsy when
empty, numbers when zero, timedeltas when zero length; a relativedelta is
falsy when all its components are unset. -/
def pyFalsy : PyVal → Bool
  | .pnone => true
  | .pbool b => !b
  | .pint n => n == 0
  | .pstr s => s == ""
  | .pdict es => es.isEmpty
  | .plist es => es.isEmpty
  | .pset es => es.isEmpty
  | .ptuple es => es.isEmpty
  | .ptimedelta s => s == 0
  | .prdelta r => r == {}
  | _ => false

/-- The two fixed envelope keys.  Their concrete spellings are visible in
the source at the serialize_to_json shortcut (keys __type and __var). -/
def varKey : String := "__var"

/-- See varKey. -/
def typeKey : String := "__type"

/-- _encode: wrap a payload with a type tag. -/
def mkEnc (x : JVal) (tag : String) : JVal :=
  .jobj [(varKey, x), (typeKey, .js tag)]

/-- The sentinel returned when stringification of a value fails
(module-level constant FAILED). -/
def FAILED : String := "serialization_failed"

/-- The single supported serializer version (SERIALIZER_VERSION = 1). -/
def SERIALIZER_VERSION : Int := 1

/-- Modelled exceptions.  The constructor identifies the Python exception
class, the string its message or the offending key. -/
inductive PyErr where
  | keyError (k : String) : PyErr
  | typeError (msg : String) : PyErr
  | valueError (msg : String) : PyErr
  | attributeError (k : String) : PyErr
  | assertionError : PyErr
deriving DecidableEq

example : lookupD [("a", .ji 1), ("b", .ji 2)] "b" = some (.ji 2) := by rfl
example : jobjSet [("a", .ji 1)] "a" (.ji 5) = [("a", .ji 5)] := by rfl
example : pyBEq (.pdatetime 3) (.pdatetime 3) = true := by rfl

/-! ## Encoder -/

/-- One relative component of a relativedelta payload: kept only when the
value is truthy (nonzero), from the filter `not k.startswith("_") and v`
in the relativedelta branch of _serialize. -/
def optRel (k : String) (n : Int) : JObj :=
  if n == 0 then [] else [(k, .ji n)]

/-- One absolute component: kept only when set and truthy.  Note that an
absolute component explicitly set to 0 is dropped by the truthiness
filter. -/
def optAbs (k : String) (x : Option Int) : JObj :=
  match x with
  | none => []
  | some n => if n == 0 then [] else [(k, .ji n)]

/-- The weekday component: a two-element array when an ordinal occurrence
count is present and truthy, else a one-element array. -/
def rdWeekdayEnc : Option (Int × Option Int) → JObj
  | none => []
  | some (wd, some m) =>
      if m == 0 then [("weekday", .jarr [.ji wd])]
      else [("weekday", .jarr [.ji wd, .ji m])]
  | some (wd, none) => [("weekday", .jarr [.ji wd])]

/-- Payload of a relativedelta envelope: the non-underscore truthy fields
of its __dict__ in attribute order, with the weekday entry replaced by its
array form. -/
def rdEncode (r : RD) : JObj :=
  optRel "years" r.years ++ (optRel "months" r.months ++ (optRel "days" r.days ++
  (optRel "leapdays" r.leapdays ++ (optRel "hours" r.hours ++ (optRel "minutes" r.minutes ++
  (optRel "seconds" r.seconds ++ (optRel "microseconds" r.microseconds ++
  (optAbs "year" r.year ++ (optAbs "month" r.month ++ (optAbs "day" r.day ++
  (optAbs "hour" r.hour ++ (optAbs "minute" r.minute ++ (optAbs "second" r.second ++
  (optAbs "microsecond" r.microsecond ++ rdWeekdayEnc r.weekday))))))))))))))

/-- Python str.endswith on the character lists of the strings (a
computable model of String.endsWith). -/
def endsWithM (s post : String) : Bool :=
  decide (post.data.length ≤ s.data.length) &&
  (s.data.drop (s.data.length - post.data.length) == post.data)

/-- Python `v is None` on modelled values (None is a singleton). -/
def isNoneV : PyVal → Bool
  | .pnone => true
  | _ => false

/-- isinstance(var, cls._excluded_types): logging.Logger, Connection and
type instances are marked by the excludedType flag of pother. -/
def isExcludedType : PyVal → Bool
  | .pother true _ _ => true
  | _ => false

/-- BaseSerialization._value_is_hardcoded_default: the attribute has an
entry in the constructor-default table and the stored default object IS
(object identity) the value. -/
def valueIsHardcodedDefault (ctorDefaults : List (String × Nat))
    (attr : String) (oid : Nat) : Bool :=
  match ctorDefaults.lookup attr with
  | some d => d == oid
  | none => false

/-- BaseSerialization._is_excluded. -/
def baseIsExcluded (ctorDefaults : List (String × Nat))
    (attr : String) (oid : Nat) (v : PyVal) : Bool :=
  isNoneV v || isExcludedType v || valueIsHardcodedDefault ctorDefaults attr oid

/-- SerializedBaseOperator._is_excluded: additionally drops a date-suffixed
field identical or equal to the same-named field of the owning DAG, and an
empty executor_config or params, then defers to the base rule. -/
def opIsExcluded (ctorDefaults : List (String × Nat)) (hasDag : Bool)
    (ownerAttrs : Attrs) (attr : String) (oid : Nat) (v : PyVal) : Bool :=
  (if !(isNoneV v) && hasDag && endsWithM attr "_date" then
    match lookupA ownerAttrs attr with
    | some (dOid, dVal) => oid == dOid || pyBEq v dVal
    | none => false
   else false) ||
  ((attr == "executor_config" || attr == "params") && pyFalsy v) ||
  baseIsExcluded ctorDefaults attr oid v

/-- The value stored for one non-excluded field by serialize_to_json: a
decorated field stores its encoding unchanged; any other field whose
encoding is a dict containing the type key is unwrapped to the bare
payload entry of that dict; every other encoding is stored unchanged. -/
def storedValue (decorated : List String) (key : String) (sv : JVal) :
    Except PyErr JVal :=
  if decorated.contains key then .ok sv
  else
    match sv with
    | .jobj m =>
        if hasK m typeKey then
          match lookupD m varKey with
          | some w => .ok w
          | none => .error (.keyError varKey)
        else .ok (.jobj m)
    | w => .ok w

/-- Field iteration of serialize_to_json.  attrs is the attribute
dictionary of the object being encoded; sattrs holds, for each attribute,
the result of _serialize on its value (the caller passes serAttrs attrs,
so a looked-up entry of sattrs is exactly _serialize of the looked-up
attribute value; a missing attribute reads as None, whose encoding is
null). -/
def buildJson (decorated : List String) (excl : String → Nat → PyVal → Bool)
    (attrs : Attrs) (sattrs : List (String × JVal)) :
    List String → Except PyErr (List (String × JVal))
  | [] => .ok []
  | key :: rest =>
      let gv := (lookupA attrs key).getD (0, .pnone)
      if excl key gv.1 gv.2 then
        buildJson decorated excl attrs sattrs rest
      else do
        let w ← storedValue decorated key ((lookupD sattrs key).getD .jnull)
        let r ← buildJson decorated excl attrs sattrs rest
        .ok ((key, w) :: r)

/-- Modelled from the spec: the serializable-field set of a step node (the
get_serialized_fields contract of BaseOperator lives in
airflow/models/baseoperator.py, which is not under src/).  The modelled
node capability declares the fields the claims exercise. -/
def opSerializedFields : List String :=
  ["task_id", "start_date", "end_date", "_downstream_task_ids", "subdag"]

/-- SerializedBaseOperator._decorated_fields. -/
def opDecoratedFields : List String := ["executor_config"]

/-- Modelled from the spec: the constructor-default table of a node, built
from the construction parameters with a non-null default
(signature(BaseOperator) is evaluated in airflow/models/baseoperator.py,
not under src/).  None of the modelled fields has a non-null constructor
default. -/
def opCtorDefaults : List (String × Nat) := []

/-- Modelled from the spec: the serializable-field set of a graph (the
get_serialized_fields contract of DAG lives in airflow/models/dag.py, not
under src/). -/
def dagSerializedFields : List String :=
  ["_dag_id", "fileloc", "start_date", "end_date"]

/-- SerializedDAG._decorated_fields. -/
def dagDecoratedFields : List String := ["schedule_interval", "default_args"]

/-- Modelled from the spec: the constructor-default table of a graph
(signature(DAG) is evaluated outside src/); none of the modelled fields
has a non-null constructor default. -/
def dagCtorDefaults : List (String × Nat) := []

mutual
/-- Body of _serialize (the statements inside its try block).  An .error
result is an exception reaching the enclosing except handler. -/
def serializeCore : PyVal → Except PyErr JVal
  | .pnone => .ok .jnull
  | .pbool b => .ok (.jb b)
  | .pint n => .ok (.ji n)
  | .pstr s => .ok (.js s)
  | .pdict es => .ok (mkEnc (.jobj (serD es)) "dict")
  | .plist es => .ok (.jarr (serL es))
  | .pdag attrs => do
      let base ← buildJson dagDecoratedFields (baseIsExcluded dagCtorDefaults)
        attrs (serAttrs attrs) dagSerializedFields
      let ts ← serTasksOf attrs
      .ok (.jobj (jobjSet base "tasks" (.jarr ts)))
  | .pop cn mn hd ow attrs => do
      let base ← buildJson opDecoratedFields (opIsExcluded opCtorDefaults hd ow)
        attrs (serAttrs attrs) opSerializedFields
      .ok (.jobj (jobjSet (jobjSet base "_task_type" (.js cn)) "_task_module" (.js mn)))
  | .pdatetime ts => .ok (mkEnc (.ji ts) "datetime")
  | .ptimedelta s => .ok (mkEnc (.ji s) "timedelta")
  | .ptimezone n => .ok (mkEnc (.js n) "timezone")
  | .prdelta r => .ok (mkEnc (.jobj (rdEncode r)) "relativedelta")
  | .pcallable (some s) _ => .ok (.js s)
  | .pcallable none _ => .error (.typeError "get_python_source")
  | .pset es => .ok (mkEnc (.jarr (serL es)) "set")
  | .ptuple es => .ok (mkEnc (.jarr (serL es)) "tuple")
  | .pdagref => .error (.typeError "back-reference marker")
  | .pother _ strOk txt => if strOk then .ok (.js txt) else .error (.typeError "str")
termination_by structural x => x

/-- _serialize mapped over list elements (each element call has its own
try/except, hence the inline catch). -/
def serL : List PyVal → List JVal
  | [] => []
  | e :: t =>
      (match serializeCore e with
        | .ok w => w
        | .error _ => .js FAILED) :: serL t
termination_by structural x => x

/-- _serialize mapped over the entries of a dict being encoded. -/
def serD : List (String × PyVal) → List (String × JVal)
  | [] => []
  | (k, v) :: t =>
      (k, match serializeCore v with
        | .ok w => w
        | .error _ => .js FAILED) :: serD t
termination_by structural x => x

/-- _serialize applied to every attribute value of an entity (the
per-field _serialize calls of serialize_to_json, precomputed). -/
def serAttrs : Attrs → List (String × JVal)
  | [] => []
  | (k, _, v) :: t =>
      (k, match serializeCore v with
        | .ok w => w
        | .error _ => .js FAILED) :: serAttrs t
termination_by structural x => x

/-- The tasks array of serialize_dag: _serialize applied to every value of
the task_dict attribute; a missing or non-dict task_dict raises. -/
def serTasksOf : Attrs → Except PyErr (List JVal)
  | [] => .error (.attributeError "task_dict")
  | (k, _, .pdict tl) :: t =>
      if k = "task_dict" then .ok (serVals tl) else serTasksOf t
  | (k, _, _) :: t =>
      if k = "task_dict" then .error (.attributeError "items") else serTasksOf t
termination_by structural x => x

/-- _serialize applied to the values of a task dictionary. -/
def serVals : List (String × PyVal) → List JVal
  | [] => []
  | (_, v) :: t =>
      (match serializeCore v with
        | .ok w => w
        | .error _ => .js FAILED) :: serVals t
termination_by structural x => x
end

/-- _serialize: the whole function, i.e. serializeCore wrapped in the
broad except handler that substitutes the FAILED sentinel. -/
def serialize (v : PyVal) : JVal :=
  match serializeCore v with
  | .ok w => w
  | .error _ => .js FAILED

/-- serialize_to_json, parametric in the class data (field list, decorated
fields, exclusion rule). -/
def serialize_to_json (fields decorated : List String)
    (excl : String → Nat → PyVal → Bool) (attrs : Attrs) :
    Except PyErr (List (String × JVal)) :=
  buildJson decorated excl attrs (serAttrs attrs) fields

/-- SerializedBaseOperator.serialize_operator. -/
def serialize_operator (cn mn : String) (hasDag : Bool) (ow : Attrs)
    (attrs : Attrs) : Except PyErr JVal := do
  let base ← buildJson opDecoratedFields (opIsExcluded opCtorDefaults hasDag ow)
    attrs (serAttrs attrs) opSerializedFields
  .ok (.jobj (jobjSet (jobjSet base "_task_type" (.js cn)) "_task_module" (.js mn)))

/-- SerializedDAG.serialize_dag. -/
def serialize_dag (attrs : Attrs) : Except PyErr JVal := do
  let base ← buildJson dagDecoratedFields (baseIsExcluded dagCtorDefaults)
    attrs (serAttrs attrs) dagSerializedFields
  let ts ← serTasksOf attrs
  .ok (.jobj (jobjSet base "tasks" (.jarr ts)))

example : serializeCore (.pop "c" "m" false [] []) = serialize_operator "c" "m" false [] [] := by rfl
example : serializeCore (.pdag []) = serialize_dag [] := by rfl
example : serialize (.ptimedelta 90) = .jobj [("__var", .ji 90), ("__type", .js "timedelta")] := by rfl
example : serialize (.pother false false "x") = .js "serialization_failed" := by rfl

/-! ## Decoder -/

mutual
/-- The identity embedding of a JSON wire value as the Python value the
json parser produced for it: used where the decoders assign a payload
value as-is.  The jweekday marker is not a JSON value. -/
def jvalToPy : JVal → Except PyErr PyVal
  | .jnull => .ok .pnone
  | .jb b => .ok (.pbool b)
  | .ji n => .ok (.pint n)
  | .js s => .ok (.pstr s)
  | .jarr l => do
      let vs ← jvalToPyL l
      .ok (.plist vs)
  | .jobj m => do
      let vs ← jvalToPyD m
      .ok (.pdict vs)
  | .jweekday _ _ => .error (.typeError "not a wire value")
termination_by structural x => x
def jvalToPyL : List JVal → Except PyErr (List PyVal)
  | [] => .ok []
  | e :: t => do
      let v ← jvalToPy e
      let vs ← jvalToPyL t
      .ok (v :: vs)
termination_by structural x => x
def jvalToPyD : List (String × JVal) → Except PyErr (List (String × PyVal))
  | [] => .ok []
  | (k, e) :: t => do
      let v ← jvalToPy e
      let vs ← jvalToPyD t
      .ok ((k, v) :: vs)
termination_by structural x => x
end

/-- Insertion into a Python set: no-op when an equal member is present. -/
def setInsert (l : List PyVal) (v : PyVal) : List PyVal :=
  if l.any (fun w => pyBEq w v) then l else l ++ [v]

/-- A member being placed into a set must be hashable; lists and dicts are
not.  (Elements of the reverse-edge arrays are plain strings.) -/
def pySetEl : JVal → Except PyErr PyVal
  | .jnull => .ok .pnone
  | .jb b => .ok (.pbool b)
  | .ji n => .ok (.pint n)
  | .js s => .ok (.pstr s)
  | .jarr _ => .error (.typeError "unhashable")
  | .jobj _ => .error (.typeError "unhashable")
  | .jweekday _ _ => .error (.typeError "not a wire value")

/-- Elementwise conversion for Python set(...) over a wire array. -/
def pySetEls : List JVal → Except PyErr (List PyVal)
  | [] => .ok []
  | e :: t => do
      let v ← pySetEl e
      let vs ← pySetEls t
      .ok (v :: vs)

/-- Python set(v) for the reverse-edge-set branch of the decoders. -/
def pySetOf : JVal → Except PyErr PyVal
  | .jarr l => do
      let es ← pySetEls l
      .ok (.pset (es.foldl setInsert []))
  | _ => .error (.typeError "not an iterable of hashables")

/-- Python equality between the wire type tag and a member of the string
enum DagAttributeTypes: only an equal string compares equal. -/
def isTag (ty : JVal) (s : String) : Bool :=
  match ty with
  | .js t => t == s
  | _ => false

/-- The elif chain of _deserialize over the type tag, reified: which
member of the closed tag set the tag value equals, if any (a non-string
tag equals none of them). -/
inductive TagCode where
  | tDict : TagCode
  | tDag : TagCode
  | tOp : TagCode
  | tDatetime : TagCode
  | tTimedelta : TagCode
  | tTimezone : TagCode
  | tRdelta : TagCode
  | tSet : TagCode
  | tTuple : TagCode
  | tUnknown : TagCode
deriving DecidableEq

/-- See TagCode. -/
def tagCode (ty : JVal) : TagCode :=
  if isTag ty "dict" then .tDict
  else if isTag ty "dag" then .tDag
  else if isTag ty "op" then .tOp
  else if isTag ty "datetime" then .tDatetime
  else if isTag ty "timedelta" then .tTimedelta
  else if isTag ty "timezone" then .tTimezone
  else if isTag ty "relativedelta" then .tRdelta
  else if isTag ty "set" then .tSet
  else if isTag ty "tuple" then .tTuple
  else .tUnknown

/-- The exception each branch of _deserialize raises when its payload does
not have the shape the branch consumes; for tUnknown, the TypeError of the
final else branch. -/
def tagErr : TagCode → PyErr
  | .tDict => .attributeError "items"
  | .tDag => .typeError "encoded dag must be a mapping"
  | .tOp => .typeError "encoded operator must be a mapping"
  | .tDatetime => .typeError "timestamp"
  | .tTimedelta => .typeError "timedelta seconds"
  | .tTimezone => .typeError "timezone name"
  | .tRdelta => .typeError "relativedelta payload"
  | .tSet => .typeError "not iterable"
  | .tTuple => .typeError "not iterable"
  | .tUnknown => .typeError "Invalid type in deserialization"

/-- timedelta(seconds=v). -/
def asTimedelta : JVal → Except PyErr PyVal
  | .ji n => .ok (.ptimedelta n)
  | _ => .error (.typeError "timedelta seconds")

/-- pendulum.from_timestamp(v). -/
def asDatetime : JVal → Except PyErr PyVal
  | .ji n => .ok (.pdatetime n)
  | _ => .error (.typeError "timestamp")

/-- pendulum.timezone(v). -/
def asTimezone : JVal → Except PyErr PyVal
  | .js n => .ok (.ptimezone n)
  | _ => .error (.typeError "timezone name")

/-- One keyword argument of the relativedelta constructor. -/
def rdSetField (st : RD) (k : String) (n : Int) : Except PyErr RD :=
  if k = "years" then .ok { st with years := n }
  else if k = "months" then .ok { st with months := n }
  else if k = "days" then .ok { st with days := n }
  else if k = "leapdays" then .ok { st with leapdays := n }
  else if k = "hours" then .ok { st with hours := n }
  else if k = "minutes" then .ok { st with minutes := n }
  else if k = "seconds" then .ok { st with seconds := n }
  else if k = "microseconds" then .ok { st with microseconds := n }
  else if k = "year" then .ok { st with year := some n }
  else if k = "month" then .ok { st with month := some n }
  else if k = "day" then .ok { st with day := some n }
  else if k = "hour" then .ok { st with hour := some n }
  else if k = "minute" then .ok { st with minute := some n }
  else if k = "second" then .ok { st with second := some n }
  else if k = "microsecond" then .ok { st with microsecond := some n }
  else .error (.typeError "unexpected keyword argument")

/-- The non-weekday keyword arguments of relativedelta(**var): every entry
must be numeric; the weekday entry is handled by the caller (it reaches
the constructor as the already-built weekday object). -/
def rdFold : List (String × JVal) → RD → Except PyErr RD
  | [], st => .ok st
  | (k, v) :: t, st =>
      if k = "weekday" then rdFold t st
      else
        match v with
        | .ji n => do
            let st2 ← rdSetField st k n
            rdFold t st2
        | _ => .error (.typeError "relativedelta component must be a number")

/-- The relativedelta branch of _deserialize.  When the payload has a
weekday entry, that entry of the caller-supplied dict is replaced in place
by the constructed weekday object (source line 222); the second component
of the result is the post-call state of the payload.  A weekday entry that
does not unpack into one or two arguments (in particular the weekday
object written by a previous call) raises. -/
def rdDecode (m : JObj) : Except PyErr (PyVal × JObj) :=
  match lookupD m "weekday" with
  | none => do
      let st ← rdFold m {}
      .ok (.prdelta st, m)
  | some (.jarr [.ji wd]) => do
      let st ← rdFold m {}
      .ok (.prdelta { st with weekday := some (wd, none) },
           jobjSet m "weekday" (.jweekday wd none))
  | some (.jarr [.ji wd, .ji n]) => do
      let st ← rdFold m {}
      .ok (.prdelta { st with weekday := some (wd, some n) },
           jobjSet m "weekday" (.jweekday wd (some n)))
  | some _ => .error (.typeError "weekday")

/-- Keys of a wire object. -/
def keysOf (m : JObj) : List String := m.map Prod.fst

/-- Modelled from the spec: construction of the canonical node shell (the
BaseOperator constructor lives in airflow/models/baseoperator.py, not
under src/): a node keyed by the given task id, with empty edge sets and
unset dates and sub-graph. -/
def mkOpShell (tid : PyVal) : Attrs :=
  [("task_id", 0, tid), ("_upstream_task_ids", 0, .pset []),
   ("_downstream_task_ids", 0, .pset []), ("start_date", 0, .pnone),
   ("end_date", 0, .pnone), ("subdag", 0, .pnone)]

/-- Modelled from the spec: construction of the canonical graph shell (the
DAG constructor lives in airflow/models/dag.py, not under src/): a graph
keyed by the given id with an empty node mapping. -/
def mkDagShell (did : PyVal) : Attrs :=
  [("_dag_id", 0, did), ("task_dict", 0, .pdict []), ("fileloc", 0, .pstr ""),
   ("start_date", 0, .pnone), ("end_date", 0, .pnone)]

/-- The trailing loop of both decoders: every serializable field neither
present in the payload nor in the constructor-default table is set to
None. -/
def setNones (payloadKeys ctorKeys : List String) (acc : Attrs) :
    List String → Attrs
  | [] => acc
  | k :: rest =>
      if payloadKeys.contains k || ctorKeys.contains k then
        setNones payloadKeys ctorKeys acc rest
      else
        setNones payloadKeys ctorKeys (setA acc k 0 .pnone) rest

/-- Lookup in a task dictionary (pdict entry list). -/
def lookupP : List (String × PyVal) → String → Option PyVal
  | [], _ => none
  | (k, v) :: t, key => if k = key then some v else lookupP t key

/-- Python d[k] = v on a task dictionary. -/
def setP : List (String × PyVal) → String → PyVal → List (String × PyVal)
  | [], key, v => [(key, v)]
  | (k, w) :: t, key, v =>
      if k = key then (k, v) :: t else (k, w) :: setP t key v

/-- dag.task_dict[task_id]._upstream_task_ids.add(task_id): note that the
added element is the downstream key task_id itself, exactly as in source
line 441. -/
def addUpstream (opv : PyVal) (tid : String) : Except PyErr PyVal :=
  match opv with
  | .pop cn mn hd ow attrs =>
      match lookupA attrs "_upstream_task_ids" with
      | some (o, .pset l) =>
          .ok (.pop cn mn hd ow
            (setA attrs "_upstream_task_ids" o (.pset (setInsert l (.pstr tid)))))
      | some _ => .error (.attributeError "add")
      | none => .error (.attributeError "_upstream_task_ids")
  | _ => .error (.typeError "not an operator")

/-- The upstream-rebuild inner loop of deserialize_dag, over the
reverse-edge keys of one task. -/
def addUps (st : List (String × PyVal)) : List PyVal →
    Except PyErr (List (String × PyVal))
  | [] => .ok st
  | .pstr tid :: rest =>
      match lookupP st tid with
      | some opv => do
          let opv2 ← addUpstream opv tid
          addUps (setP st tid opv2) rest
      | none => .error (.keyError tid)
  | _ :: _ => .error (.typeError "task id")

/-- One date-inheritance step of deserialize_dag: when the task value of
this date attribute is None, the same-named DAG value (the same object,
identity preserved) is assigned. -/
def copyDate1 (dagAttrs : Attrs) (attrs : Attrs) (attr : String) :
    Except PyErr Attrs :=
  match lookupA attrs attr with
  | none => .error (.attributeError attr)
  | some (_, .pnone) =>
      match lookupA dagAttrs attr with
      | none => .error (.attributeError attr)
      | some (dOid, dv) => .ok (setA attrs attr dOid dv)
  | some _ => .ok attrs

/-- The per-task body of the post-processing loop of deserialize_dag: link
the task to the graph, inherit unset dates, and mark a nested sub-graph.
The graph back-reference is modelled by the hasDag flag (the snapshot of
owning-graph attributes is not tracked on decode: no claim reads it). -/
def postTask (dagAttrs : Attrs) (opv : PyVal) : Except PyErr PyVal :=
  match opv with
  | .pop cn mn _ _ attrs => do
      let a1 ← copyDate1 dagAttrs attrs "start_date"
      let a2 ← copyDate1 dagAttrs a1 "end_date"
      let a3 ← (match lookupA a2 "subdag" with
        | none => .error (.attributeError "subdag")
        | some (_, .pnone) => .ok a2
        | some (o, .pdag sd) =>
            .ok (setA a2 "subdag" o
              (.pdag (setA (setA sd "parent_dag" 0 .pdagref) "is_subdag" 0 (.pbool true))))
        | some _ => .error (.attributeError "subdag"))
      .ok (.pop cn mn true [] a3)
  | _ => .error (.typeError "not an operator")

/-- The post-processing loop of deserialize_dag over the task keys in
insertion order; the task dictionary evolves in place, so each step reads
the current state. -/
def postLoop (dagAttrs : Attrs) (st : List (String × PyVal)) :
    List String → Except PyErr (List (String × PyVal))
  | [] => .ok st
  | k :: rest =>
      match lookupP st k with
      | none => .error (.keyError k)
      | some opv => do
          match (← postTask dagAttrs opv) with
          | .pop cn mn hd ow attrs =>
              match lookupA attrs "_downstream_task_ids" with
              | some (_, .pset ds) => do
                  let st2 ← addUps (setP st k (.pop cn mn hd ow attrs)) ds
                  postLoop dagAttrs st2 rest
              | some _ => .error (.typeError "not a set")
              | none => .error (.attributeError "_downstream_task_ids")
          | _ => .error (.typeError "not an operator")

/-- The construction prefix of deserialize_operator: index the payload by
task_id (KeyError when absent), build the canonical node shell for it and
attach the empty plugin-link list.  The plugin registry is an external
collaborator, modelled empty: no registered entry matches, and the spec
notes an empty match is not an error. -/
def opShellFor (m : JObj) : Except PyErr Attrs :=
  match lookupD m "task_id" with
  | none => .error (.keyError "task_id")
  | some tidJ => do
      let tid ← jvalToPy tidJ
      .ok (setA (mkOpShell tid) "operator_extra_links" 0 (.plist []))

/-- The construction suffix of deserialize_operator: set every
serializable field neither in the payload nor in the constructor-default
table to None and return the operator. -/
def opAssemble (m : JObj) (attrs : Attrs) : PyVal :=
  .pop "SerializedBaseOperator" "airflow.serialization.serialized_objects"
    false []
    (setNones (keysOf m) (opCtorDefaults.map Prod.fst) attrs opSerializedFields)

/-- The construction prefix of deserialize_dag: index the payload by
_dag_id and build the canonical graph shell. -/
def dagShellFor (m : JObj) : Except PyErr Attrs :=
  match lookupD m "_dag_id" with
  | none => .error (.keyError "_dag_id")
  | some didJ => do
      let did ← jvalToPy didJ
      .ok (mkDagShell did)

/-- The construction suffix of deserialize_dag: the set-to-None loop, the
full_filepath assignment from fileloc, and the post-processing loop over
the task dictionary (graph link, date inheritance, sub-graph marking,
upstream rebuild). -/
def dagAssemble (m : JObj) (a1 : Attrs) : Except PyErr PyVal := do
  let a2 := setNones (keysOf m) (dagCtorDefaults.map Prod.fst) a1 dagSerializedFields
  let a3 ← (match lookupA a2 "fileloc" with
    | some (o, v) => .ok (setA a2 "full_filepath" o v)
    | none => .error (.attributeError "fileloc"))
  match lookupA a3 "task_dict" with
  | some (tdo, .pdict st) => do
      let st2 ← postLoop a3 st (st.map Prod.fst)
      .ok (.pdag (setA a3 "task_dict" tdo (.pdict st2)))
  | some _ => .error (.attributeError "task_dict")
  | none => .error (.attributeError "task_dict")

mutual
/-- BaseSerialization._deserialize.  The first component of the result is
the decoded value, the second the post-call state of the input (the
relativedelta branch mutates the payload of its envelope in place; the
decoded graphs and operators are returned as values only, their payload
post-state is not tracked).  A dict input is scanned for its payload
entry (deserObj), mirroring the var = encoded_var[VAR] lookup. -/
def deser : JVal → Except PyErr (PyVal × JVal)
  | .jnull => .ok (.pnone, .jnull)
  | .jb b => .ok (.pbool b, .jb b)
  | .ji n => .ok (.pint n, .ji n)
  | .js s => .ok (.pstr s, .js s)
  | .jarr l => do
      let (vs, rs) ← deserL l
      .ok (.plist vs, .jarr rs)
  | .jweekday _ _ => .error .assertionError
  | .jobj m => deserObj m m
termination_by structural x => x

/-- Scan of an envelope dict for its first payload entry (the semantics of
encoded_var[VAR], raising KeyError when absent). -/
def deserObj : List (String × JVal) → JObj → Except PyErr (PyVal × JVal)
  | [], _ => .error (.keyError varKey)
  | (k, v) :: t, m =>
      if k = varKey then deserTagged v m else deserObj t m
termination_by structural x => x

/-- The tag dispatch of _deserialize over an envelope with payload var
and whole dict m, grouped by the shape of the payload: each (payload
shape, tag) pair behaves exactly as the corresponding elif branch of the
source, and a pair the branch cannot consume raises that branch's
exception (tagErr). -/
def deserTagged (var : JVal) (m : JObj) : Except PyErr (PyVal × JVal) :=
  match lookupD m typeKey with
  | none => .error (.keyError typeKey)
  | some ty =>
    match var with
    | .jobj dm =>
        match tagCode ty with
        | .tDict => do
            let (vs, rs) ← deserD dm
            .ok (.pdict vs, .jobj (jobjSet m varKey (.jobj rs)))
        | .tDag => do
            let sh ← dagShellFor dm
            let a1 ← dagLoop dm sh
            let d ← dagAssemble dm a1
            .ok (d, .jobj m)
        | .tOp => do
            let sh ← opShellFor dm
            let a ← opLoop dm sh
            .ok (opAssemble dm a, .jobj m)
        | .tRdelta => do
            let (v, rm2) ← rdDecode dm
            .ok (v, .jobj (jobjSet m varKey (.jobj rm2)))
        | c => .error (tagErr c)
    | .jarr l =>
        match tagCode ty with
        | .tSet => do
            let (vs, rs) ← deserL l
            .ok (.pset (vs.foldl setInsert []), .jobj (jobjSet m varKey (.jarr rs)))
        | .tTuple => do
            let (vs, rs) ← deserL l
            .ok (.ptuple vs, .jobj (jobjSet m varKey (.jarr rs)))
        | c => .error (tagErr c)
    | .ji n =>
        match tagCode ty with
        | .tDatetime => .ok (.pdatetime n, .jobj m)
        | .tTimedelta => .ok (.ptimedelta n, .jobj m)
        | c => .error (tagErr c)
    | .js s =>
        match tagCode ty with
        | .tTimezone => .ok (.ptimezone s, .jobj m)
        | c => .error (tagErr c)
    | .jnull => .error (tagErr (tagCode ty))
    | .jb _ => .error (tagErr (tagCode ty))
    | .jweekday _ _ => .error (tagErr (tagCode ty))
termination_by structural var

/-- _deserialize mapped over list elements, with post-call element
states. -/
def deserL : List JVal → Except PyErr (List PyVal × List JVal)
  | [] => .ok ([], [])
  | e :: t => do
      let (v, r) ← deser e
      let (vs, rs) ← deserL t
      .ok (v :: vs, r :: rs)
termination_by structural x => x

/-- _deserialize mapped over the entries of a dict envelope payload. -/
def deserD : List (String × JVal) → Except PyErr (List (String × PyVal) × List (String × JVal))
  | [] => .ok ([], [])
  | (k, e) :: t => do
      let (v, r) ← deser e
      let (vs, rs) ← deserD t
      .ok ((k, v) :: vs, (k, r) :: rs)
termination_by structural x => x

/-- SerializedBaseOperator.deserialize_operator. -/
def deserialize_operator : JVal → Except PyErr PyVal
  | .jobj tm => do
      let sh ← opShellFor tm
      let a ← opLoop tm sh
      .ok (opAssemble tm a)
  | _ => .error (.typeError "encoded operator must be a mapping")
termination_by structural x => x

/-- The payload-consuming loop of deserialize_operator, in payload
order. -/
def opLoop : List (String × JVal) → Attrs → Except PyErr Attrs
  | [], acc => .ok acc
  | (k, v) :: t, acc => do
      let pv ←
        (if k = "_downstream_task_ids" then pySetOf v
         else if k = "subdag" then deserialize_dag v
         else if k = "retry_delay" || k = "execution_timeout" then asTimedelta v
         else if endsWithM k "_date" then asDatetime v
         else if opDecoratedFields.contains k || !(opSerializedFields.contains k) then do
           let (x, _) ← deser v
           pure x
         else jvalToPy v)
      opLoop t (setA acc k 0 pv)
termination_by structural x => x

/-- SerializedDAG.deserialize_dag. -/
def deserialize_dag : JVal → Except PyErr PyVal
  | .jobj dm => do
      let sh ← dagShellFor dm
      let a1 ← dagLoop dm sh
      dagAssemble dm a1
  | _ => .error (.typeError "encoded dag must be a mapping")
termination_by structural x => x

/-- The payload-consuming loop of deserialize_dag, in payload order. -/
def dagLoop : List (String × JVal) → Attrs → Except PyErr Attrs
  | [], acc => .ok acc
  | (k, v) :: t, acc =>
      if k = "tasks" then
        match v with
        | .jarr l => do
            let entries ← taskEntries l []
            dagLoop t (setA acc "task_dict" 0 (.pdict entries))
        | _ => .error (.typeError "tasks must be a list")
      else do
        let pv ←
          (if k = "_downstream_task_ids" then pySetOf v
           else if k = "timezone" then asTimezone v
           else if k = "retry_delay" || k = "execution_timeout" then asTimedelta v
           else if endsWithM k "_date" then asDatetime v
           else if dagDecoratedFields.contains k then do
             let (x, _) ← deser v
             pure x
           else jvalToPy v)
        dagLoop t (setA acc k 0 pv)
termination_by structural x => x

/-- The dict comprehension of the tasks branch: task_id key, decoded
operator value, built like a Python dict (a repeated key overwrites). -/
def taskEntries : List JVal → List (String × PyVal) →
    Except PyErr (List (String × PyVal))
  | [], acc => .ok acc
  | task :: rest, acc =>
      match task with
      | .jobj tm =>
          match lookupD tm "task_id" with
          | some (.js s) => do
              let o ← deserialize_operator task
              taskEntries rest (setP acc s o)
          | some _ => .error (.typeError "task_id key")
          | none => .error (.keyError "task_id")
      | _ => .error (.typeError "encoded task must be a mapping")
termination_by structural x => x
end

/-- Decoded value of _deserialize, when the post-call input state is not
of interest. -/
def deserV (e : JVal) : Except PyErr PyVal :=
  (deser e).map Prod.fst

/-- Python equality of the looked-up version value with the supported
version 1: a missing key reads as the sentinel string, which is not equal
to 1; the boolean True is equal to 1 under Python equality. -/
def versionMatches : Option JVal → Bool
  | some (.ji n) => n == SERIALIZER_VERSION
  | some (.jb b) => b == true
  | _ => false

/-- SerializedDAG.from_dict: the version gate, then deserialize_dag on the
dag entry. -/
def from_dict (m : JObj) : Except PyErr PyVal :=
  if versionMatches (lookupD m "__version") then
    match lookupD m "dag" with
    | some p => deserialize_dag p
    | none => .error (.keyError "dag")
  else .error (.valueError "Unsure how to deserialize version")

/-! ## Concrete graph families for the graph-level claims -/

/-- Data of one node of a generated graph: its key, optional start and end
dates (object id seed and whole-second timestamp), and its reverse-edge
keys.  Object ids of date objects are seed + 1, so they never collide with
the id 0 used for the None singleton. -/
structure OpData where
  tid : String
  startD : Option (Nat × Int)
  endD : Option (Nat × Int)
  downstream : List String

/-- Data of a generated graph. -/
structure DagData where
  did : String
  floc : String
  startD : Option (Nat × Int)
  endD : Option (Nat × Int)
  tasks : List OpData

/-- A date attribute value from its datum: the None singleton (id 0) when
absent, else a datetime object with id seed + 1. -/
def dateAttr : Option (Nat × Int) → Nat × PyVal
  | none => (0, .pnone)
  | some (o, ts) => (o + 1, .pdatetime ts)

/-- The scalar attributes of a generated graph (also the owning-graph
snapshot carried by its nodes). -/
def dagScalarAttrs (g : DagData) : Attrs :=
  [("_dag_id", 1, .pstr g.did), ("fileloc", 1, .pstr g.floc),
   ("start_date", (dateAttr g.startD).1, (dateAttr g.startD).2),
   ("end_date", (dateAttr g.endD).1, (dateAttr g.endD).2)]

/-- A generated node attached to its graph. -/
def mkOpV (g : DagData) (t : OpData) : PyVal :=
  .pop "Op" "mod" true (dagScalarAttrs g)
    [("task_id", 1, .pstr t.tid),
     ("start_date", (dateAttr t.startD).1, (dateAttr t.startD).2),
     ("end_date", (dateAttr t.endD).1, (dateAttr t.endD).2),
     ("_downstream_task_ids", 1, .pset (t.downstream.map .pstr)),
     ("subdag", 0, .pnone)]

/-- The attribute dictionary of a generated graph. -/
def mkDagAttrs (g : DagData) : Attrs :=
  dagScalarAttrs g ++
  [("task_dict", 1, .pdict (g.tasks.map (fun t => (t.tid, mkOpV g t))))]

/-- The task dictionary of a decoded graph. -/
def taskDictOf (attrs : Attrs) : Option (List (String × PyVal)) :=
  match lookupA attrs "task_dict" with
  | some (_, .pdict l) => some l
  | _ => none

/-- An attribute value of one node of a decoded graph. -/
def opAttrOf (d : Attrs) (tid attr : String) : Option PyVal :=
  match taskDictOf d with
  | some l =>
      match lookupP l tid with
      | some (.pop _ _ _ _ a) => (lookupA a attr).map Prod.snd
      | _ => none
  | none => none

/-- An attribute value of a decoded graph. -/
def dagAttrOf (d : Attrs) (attr : String) : Option PyVal :=
  (lookupA d attr).map Prod.snd

/-- The spec scenario g1: nodes a and b, where b has reverse-edge set
containing a. -/
def g1 : DagData :=
  ⟨"g1", "f.py", none, none, [⟨"a", none, none, []⟩, ⟨"b", none, none, ["a"]⟩]⟩

example :
    (match (serialize_dag (mkDagAttrs g1)).bind deserialize_dag with
      | .ok (.pdag d) => opAttrOf d "a" "_upstream_task_ids"
      | _ => none) = some (.pset [.pstr "a"]) := by rfl

example : deserV (.jobj [("__var", .ji 90), ("__type", .js "timedelta")]) = .ok (.ptimedelta 90) := by rfl
example : deserV (.js "abc") = .ok (.pstr "abc") := by rfl
example : from_dict [] = .error (.valueError "Unsure how to deserialize version") := by rfl

/-! ## Claims -/

/-- C1: evaluation of the code at the failing input.  Decoding the
encoding of graph g1 (nodes a and b, where the reverse-edge set of b is
{a}) yields a graph in which the forward-dependency set of node a is {a}:
the rebuild loop adds the downstream key task_id to the upstream set of
the node it refers to, instead of the key of the node being processed, so
the set does not contain "b" as the claim requires. -/
theorem c1_upstream_rebuild_selfloop :
    (match (serialize_dag (mkDagAttrs g1)).bind deserialize_dag with
      | .ok (.pdag d) => opAttrOf d "a" "_upstream_task_ids"
      | _ => none) = some (.pset [.pstr "a"]) ∧
    ¬ ((PyVal.pstr "b") ∈ [PyVal.pstr "a"]) := by
  refine ⟨rfl, ?_⟩
  simp

/-- C2: the version gate of from_dict.  A payload without the version key,
or whose version value does not compare equal (Python equality) to the
supported version 1, makes from_dict raise ValueError without decoding
anything; a payload whose version value equals 1 proceeds to decode the
dag entry. -/
theorem c2_version_gate :
    (∀ m : JObj, lookupD m "__version" = none →
      from_dict m = .error (.valueError "Unsure how to deserialize version")) ∧
    (∀ m : JObj, ∀ v, lookupD m "__version" = some v →
      versionMatches (some v) = false →
      from_dict m = .error (.valueError "Unsure how to deserialize version")) ∧
    (∀ m : JObj, ∀ v, lookupD m "__version" = some v →
      versionMatches (some v) = true →
      from_dict m = (match lookupD m "dag" with
        | some p => deserialize_dag p
        | none => .error (.keyError "dag"))) := by
  refine ⟨fun m h => ?_, fun m v h h2 => ?_, fun m v h h2 => ?_⟩
  · simp [from_dict, h, versionMatches]
  · simp [from_dict, h, h2]
  · simp [from_dict, h, h2]

/-- Witness for c2_version_gate: a payload with no version raises, a
payload with version 2 raises, and a payload with version 1 decodes its
dag entry. -/
theorem c2_version_gate_witness :
    from_dict [("dag", .jobj [("_dag_id", .js "d")])] =
      .error (.valueError "Unsure how to deserialize version") ∧
    from_dict [("__version", .ji 2), ("dag", .jobj [("_dag_id", .js "d")])] =
      .error (.valueError "Unsure how to deserialize version") ∧
    from_dict [("__version", .ji 1), ("dag", .jobj [("_dag_id", .js "d")])] =
      deserialize_dag (.jobj [("_dag_id", .js "d")]) :=
  ⟨c2_version_gate.1 _ rfl,
   c2_version_gate.2.1 _ (.ji 2) rfl rfl,
   (c2_version_gate.2.2 [("__version", .ji 1), ("dag", .jobj [("_dag_id", .js "d")])]
     (.ji 1) rfl rfl).trans rfl⟩

/-- Modelled from the spec: the string values of the type-tag enum
DagAttributeTypes (airflow/serialization/enums.py is not under src/),
taken as the closed tag set the spec lists; the dispatch structure over
them is from src. -/
def knownTags : List String :=
  ["dict", "dag", "op", "datetime", "timedelta", "timezone",
   "relativedelta", "set", "tuple"]

/-- C3: decoding an envelope dict whose TYPE entry is a string outside the
closed tag set raises TypeError instead of returning a value. -/
theorem c3_unknown_tag_rejected (p : JVal) (t : String) (h : ¬ t ∈ knownTags) :
    deser (.jobj [(varKey, p), (typeKey, .js t)]) =
      .error (.typeError "Invalid type in deserialization") := by
  simp only [knownTags, List.mem_cons, List.not_mem_nil, or_false] at h
  push_neg at h
  obtain ⟨h1, h2, h3, h4, h5, h6, h7, h8, h9⟩ := h
  have e1 : isTag (.js t) "dict" = false := by simp [isTag, h1]
  have e2 : isTag (.js t) "dag" = false := by simp [isTag, h2]
  have e3 : isTag (.js t) "op" = false := by simp [isTag, h3]
  have e4 : isTag (.js t) "datetime" = false := by simp [isTag, h4]
  have e5 : isTag (.js t) "timedelta" = false := by simp [isTag, h5]
  have e6 : isTag (.js t) "timezone" = false := by simp [isTag, h6]
  have e7 : isTag (.js t) "relativedelta" = false := by simp [isTag, h7]
  have e8 : isTag (.js t) "set" = false := by simp [isTag, h8]
  have e9 : isTag (.js t) "tuple" = false := by simp [isTag, h9]
  have hscan : deser (.jobj [(varKey, p), (typeKey, .js t)]) =
      deserTagged p [(varKey, p), (typeKey, .js t)] := rfl
  rw [hscan, deserTagged]
  have hty : lookupD [(varKey, p), (typeKey, .js t)] typeKey = some (.js t) := rfl
  rw [hty]
  have hcode : tagCode (.js t) = .tUnknown := by
    simp [tagCode, e1, e2, e3, e4, e5, e6, e7, e8, e9]
  simp only [hcode]
  cases p <;> rfl

/-- Witness for c3_unknown_tag_rejected at the tag of the spec. -/
theorem c3_unknown_tag_witness :
    deser (.jobj [(varKey, .jnull), (typeKey, .js "not_a_real_tag")]) =
      .error (.typeError "Invalid type in deserialization") :=
  c3_unknown_tag_rejected .jnull "not_a_real_tag" (by decide)

/-- C7: _serialize is total.  Every call either returns the successful
encoding produced by its body, or the body raises and the enclosing
handler returns the fixed sentinel string serialization_failed; in
particular a value whose string conversion raises encodes to the
sentinel. -/
theorem c7_serialize_never_raises :
    (∀ v : PyVal, (∃ w, serializeCore v = .ok w ∧ serialize v = w) ∨
      (∃ e, serializeCore v = .error e ∧ serialize v = .js FAILED)) ∧
    serialize (.pother false false "boom") = .js FAILED ∧
    FAILED = "serialization_failed" := by
  refine ⟨fun v => ?_, rfl, rfl⟩
  cases h : serializeCore v with
  | ok w => exact .inl ⟨w, rfl, by simp [serialize, h]⟩
  | error e => exact .inr ⟨e, rfl, by simp [serialize, h]⟩

/-- C9 counterexample: for a callable whose source retrieval raises,
_serialize returns the sentinel produced by the broad exception handler,
not the display string of the value, so the claimed fall-through to the
generic string-conversion path does not happen. -/
theorem c9_counterexample :
    serialize (.pcallable none "<function f>") = .js FAILED ∧
    JVal.js FAILED ≠ .js "<function f>" := by
  refine ⟨rfl, ?_⟩
  simp [FAILED]

/-- C9 amended: when source retrieval raises, _serialize returns the
sentinel serialization_failed; when source retrieval succeeds it returns
the source text as a plain untagged string, and decoding that string
returns the text, not a callable. -/
theorem c9_callable_source (s txt : String) :
    serialize (.pcallable none txt) = .js FAILED ∧
    serialize (.pcallable (some s) txt) = .js s ∧
    deserV (.js s) = .ok (.pstr s) :=
  ⟨rfl, rfl, rfl⟩

/-- A key written by jobjSet is subsequently found with the written
value. -/
theorem lookupD_jobjSet_self (m : JObj) (k : String) (v : JVal) :
    lookupD (jobjSet m k v) k = some v := by
  induction m with
  | nil => simp [jobjSet, lookupD]
  | cons h t ih =>
      obtain ⟨k0, v0⟩ := h
      by_cases hk : k0 = k
      · simp [jobjSet, lookupD, hk]
      · simp [jobjSet, lookupD, hk, ih]

/-- _deserialize on a relativedelta envelope is the relativedelta branch:
the decoded value and post-call payload of rdDecode, rewrapped in the
envelope. -/
theorem deser_rdelta_env (m : JObj) :
    deser (mkEnc (.jobj m) "relativedelta") =
      (match rdDecode m with
        | .ok (v, rm2) => .ok (v, mkEnc (.jobj rm2) "relativedelta")
        | .error e => .error e) := by
  cases hr : rdDecode m with
  | ok p =>
      obtain ⟨v, rm2⟩ := p
      show Except.bind (rdDecode m) _ = _
      rw [hr]
      rfl
  | error e =>
      show Except.bind (rdDecode m) _ = _
      rw [hr]
      rfl

/-- C10: decoding a relativedelta envelope whose payload contains a
weekday entry replaces that entry of the caller-supplied payload dict in
place with the constructed weekday object; the post-call payload differs
from the original, and decoding the post-call structure again raises
instead of succeeding as the first call did. -/
theorem c10_rdelta_decode_mutates (m : JObj) (w : JVal) (pv : PyVal) (res : JVal)
    (hw : lookupD m "weekday" = some w)
    (hok : deser (mkEnc (.jobj m) "relativedelta") = .ok (pv, res)) :
    (∃ wd wn, res = mkEnc (.jobj (jobjSet m "weekday" (.jweekday wd wn))) "relativedelta") ∧
    res ≠ mkEnc (.jobj m) "relativedelta" ∧
    (∃ e, deser res = .error e) := by
  rw [deser_rdelta_env] at hok
  cases hr : rdDecode m with
  | error e => rw [hr] at hok; cases hok
  | ok p =>
      obtain ⟨v0, rm2⟩ := p
      rw [hr] at hok
      have hres : res = mkEnc (.jobj rm2) "relativedelta" := by
        cases hok
        rfl
      rw [rdDecode, hw] at hr
      have hshape : ∃ wd wn, w = .jarr [JVal.ji wd] ∨ w = .jarr [JVal.ji wd, JVal.ji wn] := by
        match w with
        | .jarr [.ji wd] => exact ⟨wd, 0, .inl rfl⟩
        | .jarr [.ji wd, .ji n] => exact ⟨wd, n, .inr rfl⟩
        | .jnull | .jb _ | .ji _ | .js _ | .jobj _ | .jweekday _ _ => cases hr
        | .jarr [] => cases hr
        | .jarr [.jnull] | .jarr [.jb _] | .jarr [.js _] | .jarr [.jarr _]
        | .jarr [.jobj _] | .jarr [.jweekday _ _] => cases hr
        | .jarr (.jnull :: _ :: _) | .jarr (.jb _ :: _ :: _) | .jarr (.js _ :: _ :: _)
        | .jarr (.jarr _ :: _ :: _) | .jarr (.jobj _ :: _ :: _)
        | .jarr (.jweekday _ _ :: _ :: _) => cases hr
        | .jarr (.ji _ :: .jnull :: _) | .jarr (.ji _ :: .jb _ :: _)
        | .jarr (.ji _ :: .js _ :: _) | .jarr (.ji _ :: .jarr _ :: _)
        | .jarr (.ji _ :: .jobj _ :: _) | .jarr (.ji _ :: .jweekday _ _ :: _) => cases hr
        | .jarr (.ji _ :: .ji _ :: _ :: _) => cases hr
      obtain ⟨wd0, wn0, hcase⟩ := hshape
      have hrm2 : ∃ wd wn, rm2 = jobjSet m "weekday" (.jweekday wd wn) := by
        cases hcase with
        | inl hww =>
            subst hww
            cases hfold : rdFold m {} with
            | ok st => rw [hfold] at hr; cases hr; exact ⟨wd0, none, rfl⟩
            | error e => rw [hfold] at hr; cases hr
        | inr hww =>
            subst hww
            cases hfold : rdFold m {} with
            | ok st => rw [hfold] at hr; cases hr; exact ⟨wd0, some wn0, rfl⟩
            | error e => rw [hfold] at hr; cases hr
      obtain ⟨wd, wn, hrm⟩ := hrm2
      subst hrm
      refine ⟨⟨wd, wn, hres⟩, ?_, ?_⟩
      · intro hEq
        rw [hres] at hEq
        have h2 : jobjSet m "weekday" (.jweekday wd wn) = m := by
          simpa [mkEnc] using hEq
        have h1 : lookupD (jobjSet m "weekday" (.jweekday wd wn)) "weekday" =
            some (.jweekday wd wn) := lookupD_jobjSet_self m "weekday" _
        rw [h2, hw] at h1
        cases hcase with
        | inl hww => rw [hww] at h1; cases h1
        | inr hww => rw [hww] at h1; cases h1
      · rw [hres, deser_rdelta_env]
        have hlk : lookupD (jobjSet m "weekday" (.jweekday wd wn)) "weekday" =
            some (.jweekday wd wn) := lookupD_jobjSet_self m "weekday" _
        rw [rdDecode, hlk]
        exact ⟨.typeError "weekday", rfl⟩

/-- Witness for c10_rdelta_decode_mutates: the envelope with payload
{weekday: [2]} decodes successfully, leaves the weekday object in the
payload, and a second decode of the post-call structure raises. -/
theorem c10_rdelta_decode_mutates_witness :
    (∃ wd wn, mkEnc (.jobj [("weekday", .jweekday 2 none)]) "relativedelta" =
      mkEnc (.jobj (jobjSet [("weekday", .jarr [.ji 2])] "weekday" (.jweekday wd wn)))
        "relativedelta") ∧
    mkEnc (.jobj [("weekday", .jweekday 2 none)]) "relativedelta" ≠
      mkEnc (.jobj [("weekday", .jarr [.ji 2])]) "relativedelta" ∧
    (∃ e, deser (mkEnc (.jobj [("weekday", .jweekday 2 none)]) "relativedelta") =
      .error e) :=
  c10_rdelta_decode_mutates [("weekday", .jarr [.ji 2])] (.jarr [.ji 2])
    (.prdelta { weekday := some (2, none) })
    (mkEnc (.jobj [("weekday", .jweekday 2 none)]) "relativedelta") rfl rfl

/-- The precomputed encodings passed to buildJson agree with _serialize of
the looked-up attribute value. -/
theorem serAttrs_lookup (attrs : Attrs) (key : String) :
    lookupD (serAttrs attrs) key = (lookupA attrs key).map (fun p => serialize p.2) := by
  induction attrs with
  | nil => rfl
  | cons h t ih =>
      obtain ⟨k, o, v⟩ := h
      by_cases hk : k = key
      · simp [serAttrs, lookupA, lookupD, hk, serialize]
      · simp [serAttrs, lookupA, lookupD, hk, ih]

/-- A field excluded at every iteration never appears in the payload built
by buildJson. -/
theorem buildJson_absent (decorated : List String)
    (excl : String → Nat → PyVal → Bool) (attrs : Attrs)
    (sattrs : List (String × JVal)) (key : String)
    (hexcl : excl key ((lookupA attrs key).getD (0, .pnone)).1
      ((lookupA attrs key).getD (0, .pnone)).2 = true) :
    ∀ keys pl, buildJson decorated excl attrs sattrs keys = .ok pl →
      lookupD pl key = none := by
  intro keys
  induction keys with
  | nil =>
      intro pl h
      cases h
      rfl
  | cons k rest ih =>
      intro pl h
      rw [buildJson] at h
      by_cases hke : k = key
      · subst hke
        rw [hexcl] at h
        exact ih pl h
      · cases hx : excl k ((lookupA attrs k).getD (0, .pnone)).1
          ((lookupA attrs k).getD (0, .pnone)).2 with
        | true =>
            rw [hx] at h
            exact ih pl h
        | false =>
            rw [hx] at h
            simp only [Bool.false_eq_true, if_false] at h
            cases hs : storedValue decorated k ((lookupD sattrs k).getD .jnull) with
            | error e => rw [hs] at h; cases h
            | ok w =>
                rw [hs] at h
                cases hr : buildJson decorated excl attrs sattrs rest with
                | error e => rw [hr] at h; cases h
                | ok r =>
                    rw [hr] at h
                    cases h
                    simp only [lookupD, hke, if_false]
                    exact ih r hr

/-- A field reached non-excluded appears in the payload built by
buildJson, with the value given by the storage rule applied to its
precomputed encoding. -/
theorem buildJson_present (decorated : List String)
    (excl : String → Nat → PyVal → Bool) (attrs : Attrs)
    (sattrs : List (String × JVal)) (key : String)
    (hexcl : excl key ((lookupA attrs key).getD (0, .pnone)).1
      ((lookupA attrs key).getD (0, .pnone)).2 = false) :
    ∀ keys pl, key ∈ keys →
      buildJson decorated excl attrs sattrs keys = .ok pl →
      ∃ w, storedValue decorated key ((lookupD sattrs key).getD .jnull) = .ok w ∧
        lookupD pl key = some w := by
  intro keys
  induction keys with
  | nil =>
      intro pl hmem
      cases hmem
  | cons k rest ih =>
      intro pl hmem h
      rw [buildJson] at h
      by_cases hke : k = key
      · subst hke
        rw [hexcl] at h
        simp only [Bool.false_eq_true, if_false] at h
        cases hs : storedValue decorated k ((lookupD sattrs k).getD .jnull) with
        | error e => rw [hs] at h; cases h
        | ok w =>
            rw [hs] at h
            cases hr : buildJson decorated excl attrs sattrs rest with
            | error e => rw [hr] at h; cases h
            | ok r =>
                rw [hr] at h
                cases h
                exact ⟨w, rfl, by simp [lookupD]⟩
      · have hmem2 : key ∈ rest := by
          cases hmem with
          | head => exact absurd rfl hke
          | tail _ hmem2 => exact hmem2
        cases hx : excl k ((lookupA attrs k).getD (0, .pnone)).1
          ((lookupA attrs k).getD (0, .pnone)).2 with
        | true =>
            rw [hx] at h
            exact ih pl hmem2 h
        | false =>
            rw [hx] at h
            simp only [Bool.false_eq_true, if_false] at h
            cases hs : storedValue decorated k ((lookupD sattrs k).getD .jnull) with
            | error e => rw [hs] at h; cases h
            | ok w =>
                rw [hs] at h
                cases hr : buildJson decorated excl attrs sattrs rest with
                | error e => rw [hr] at h; cases h
                | ok r =>
                    rw [hr] at h
                    cases h
                    obtain ⟨w2, hw2, hl⟩ := ih r hmem2 hr
                    exact ⟨w2, hw2, by simp only [lookupD, hke, if_false]; exact hl⟩

/-- C5: during serialize_to_json with the base exclusion rule, a field
with an entry in the constructor-default table is elided for being the
default exactly when its value is the identical object (same object id) as
the stored default: the identical object is always absent from the
payload, and a value that is a distinct object (different object id) and
not otherwise excluded (not None, not of an excluded type) is always
present. -/
theorem c5_default_elision_by_identity
    (fields decorated : List String) (ctorDefaults : List (String × Nat))
    (attrs : Attrs) (key : String) (oid doid : Nat) (v : PyVal)
    (pl : List (String × JVal))
    (hv : lookupA attrs key = some (oid, v))
    (hd : ctorDefaults.lookup key = some doid)
    (hres : serialize_to_json fields decorated (baseIsExcluded ctorDefaults) attrs = .ok pl) :
    (oid = doid → lookupD pl key = none) ∧
    (oid ≠ doid → isNoneV v = false → isExcludedType v = false → key ∈ fields →
      ∃ w, lookupD pl key = some w) := by
  constructor
  · intro hid
    subst hid
    refine buildJson_absent decorated _ attrs (serAttrs attrs) key ?_ fields pl hres
    simp [hv, baseIsExcluded, valueIsHardcodedDefault, hd]
  · intro hne hnn hnx hmem
    have hexcl : baseIsExcluded ctorDefaults key
        ((lookupA attrs key).getD (0, .pnone)).1
        ((lookupA attrs key).getD (0, .pnone)).2 = false := by
      simp [hv, baseIsExcluded, valueIsHardcodedDefault, hd, hnn, hnx]
      exact fun h => absurd h.symm hne
    obtain ⟨w, _, hl⟩ :=
      buildJson_present decorated _ attrs (serAttrs attrs) key hexcl fields pl hmem hres
    exact ⟨w, hl⟩

/-- Witness for c5_default_elision_by_identity: with constructor default
object id 5 for field x, the value object with id 5 (the default itself)
is elided, while the distinct object with id 6 carrying an equal value is
stored. -/
theorem c5_default_elision_witness :
    lookupD ([] : List (String × JVal)) "x" = none ∧
    (∃ w, lookupD [("x", JVal.ji 3)] "x" = some w) :=
  ⟨(c5_default_elision_by_identity ["x"] [] [("x", 5)] [("x", 5, .pint 3)] "x" 5 5 (.pint 3)
      [] rfl rfl rfl).1 rfl,
   (c5_default_elision_by_identity ["x"] [] [("x", 5)] [("x", 6, .pint 3)] "x" 6 5 (.pint 3)
      [("x", .ji 3)] rfl rfl rfl).2 (by decide) rfl rfl (by simp)⟩

/-- C6 counterexample: a duration-valued field not in the decorated set is
not stored intact with its type tag: the single-key unwrap applies to the
timedelta envelope as well, storing the bare payload 90. -/
theorem c6_counterexample :
    serialize (.ptimedelta 90) = .jobj [(varKey, .ji 90), (typeKey, .js "timedelta")] ∧
    serialize_to_json ["retry_delay"] [] (baseIsExcluded [])
      [("retry_delay", 1, .ptimedelta 90)] = .ok [("retry_delay", .ji 90)] ∧
    JVal.ji 90 ≠ .jobj [(varKey, .ji 90), (typeKey, .js "timedelta")] := by
  refine ⟨rfl, rfl, ?_⟩
  simp

/-- C6 amended: for a non-decorated, non-excluded field, the stored value
is the bare payload entry of the encoded value whenever that encoding is a
dict containing the type key, i.e. a tagged envelope of any kind; an
encoding that is not such a dict is stored unchanged. -/
theorem c6_unwrap_every_envelope
    (fields decorated : List String) (excl : String → Nat → PyVal → Bool)
    (attrs : Attrs) (key : String) (oid : Nat) (v : PyVal)
    (pl : List (String × JVal))
    (hv : lookupA attrs key = some (oid, v))
    (hkey : key ∈ fields)
    (hexcl : excl key oid v = false)
    (hnd : decorated.contains key = false)
    (hres : serialize_to_json fields decorated excl attrs = .ok pl) :
    (∀ m w, serialize v = .jobj m → hasK m typeKey = true →
      lookupD m varKey = some w → lookupD pl key = some w) ∧
    (∀ m, serialize v = .jobj m → hasK m typeKey = false →
      lookupD pl key = some (.jobj m)) ∧
    (∀ w, serialize v = w → (∀ m2, w ≠ .jobj m2) → lookupD pl key = some w) := by
  have hexcl2 : excl key ((lookupA attrs key).getD (0, .pnone)).1
      ((lookupA attrs key).getD (0, .pnone)).2 = false := by
    rw [hv]
    exact hexcl
  obtain ⟨w, hw, hl⟩ :=
    buildJson_present decorated excl attrs (serAttrs attrs) key hexcl2 fields pl hkey hres
  have hsv : (lookupD (serAttrs attrs) key).getD .jnull = serialize v := by
    rw [serAttrs_lookup, hv]
    rfl
  rw [hsv] at hw
  refine ⟨fun m w2 hm ht hvar => ?_, fun m hm ht => ?_, fun w2 hm hnot => ?_⟩
  · rw [hm] at hw
    rw [storedValue, hnd] at hw
    simp only [Bool.false_eq_true, if_false, ht, if_true, hvar] at hw
    cases hw
    exact hl
  · rw [hm] at hw
    rw [storedValue, hnd] at hw
    simp only [Bool.false_eq_true, if_false, ht] at hw
    cases hw
    exact hl
  · subst hm
    have hsv2 : storedValue decorated key (serialize v) = .ok (serialize v) := by
      rw [storedValue, hnd]
      simp only [Bool.false_eq_true, if_false]
      cases hm2 : serialize v with
      | jobj m2 => exact absurd hm2 (hnot m2)
      | jnull => simp
      | jb b => simp
      | ji n => simp
      | js s2 => simp
      | jarr l => simp
      | jweekday wd wn => simp
    rw [hsv2] at hw
    cases hw
    exact hl

/-- Witness for c6_unwrap_every_envelope: the timedelta envelope of a
90-second duration field is unwrapped to the bare payload 90. -/
theorem c6_unwrap_witness :
    lookupD [("retry_delay", JVal.ji 90)] "retry_delay" = some (.ji 90) :=
  (c6_unwrap_every_envelope ["retry_delay"] [] (baseIsExcluded [])
    [("retry_delay", 1, .ptimedelta 90)] "retry_delay" 1 (.ptimedelta 90)
    [("retry_delay", .ji 90)] rfl (by simp) rfl rfl rfl).1
    [(varKey, .ji 90), (typeKey, .js "timedelta")] (.ji 90) rfl rfl rfl

/-! ## Round trip of supported values -/

/-- Keys of a Python dict value are pairwise distinct (a real dict cannot
hold a duplicate key). -/
def nodupKeysP : List (String × PyVal) → Bool
  | [] => true
  | (k, _) :: t => !(t.any (fun p => p.1 == k)) && nodupKeysP t

/-- Members of a Python set value are pairwise unequal (a real set cannot
hold two equal members). -/
def pairNE : List PyVal → Bool
  | [] => true
  | v :: t => t.all (fun w => !(pyBEq v w)) && pairNE t

/-- A recurrence rule none of whose absolute components is an explicit
zero (an explicit zero is falsy and is dropped by the encoder), and whose
weekday ordinal, if present, is nonzero. -/
def rdNoFalsyAbs (r : RD) : Bool :=
  r.year != some 0 && r.month != some 0 && r.day != some 0 && r.hour != some 0 &&
  r.minute != some 0 && r.second != some 0 && r.microsecond != some 0 &&
  (match r.weekday with
   | some (_, some n) => n != 0
   | _ => true)

mutual
/-- The supported values of the round-trip claim: primitives, text-keyed
mappings, lists, sets, tuples, timestamps, durations, time-zone
references, recurrence rules, and nestings thereof; no graphs, nodes,
callables or foreign objects.  With strict = true, recurrence rules are
additionally restricted by rdNoFalsyAbs (the amended claim); with
strict = false every recurrence rule is allowed (the claim as stated). -/
def SupportedAux : Bool → PyVal → Bool
  | _, .pnone => true
  | _, .pbool _ => true
  | _, .pint _ => true
  | _, .pstr _ => true
  | s, .pdict es => nodupKeysP es && SupportedD s es
  | s, .plist es => SupportedL s es
  | s, .pset es => SupportedL s es && pairNE es
  | s, .ptuple es => SupportedL s es
  | _, .pdatetime _ => true
  | _, .ptimedelta _ => true
  | _, .ptimezone _ => true
  | strict, .prdelta r => !strict || rdNoFalsyAbs r
  | _, .pop _ _ _ _ _ => false
  | _, .pdag _ => false
  | _, .pcallable _ _ => false
  | _, .pother _ _ _ => false
  | _, .pdagref => false
termination_by structural _ x => x
/-- SupportedAux over list elements. -/
def SupportedL : Bool → List PyVal → Bool
  | _, [] => true
  | s, v :: t => SupportedAux s v && SupportedL s t
termination_by structural _ x => x
/-- SupportedAux over dict entries. -/
def SupportedD : Bool → List (String × PyVal) → Bool
  | _, [] => true
  | s, (_, v) :: t => SupportedAux s v && SupportedD s t
termination_by structural _ x => x
end

theorem supportedL_mem {s : Bool} {l : List PyVal} (h : SupportedL s l = true) :
    ∀ v ∈ l, SupportedAux s v = true := by
  induction l with
  | nil => intro v hv; cases hv
  | cons a t ih =>
      rw [SupportedL, Bool.and_eq_true] at h
      intro v hv
      cases hv with
      | head => exact h.1
      | tail _ hv2 => exact ih h.2 v hv2

theorem supportedD_mem {s : Bool} {l : List (String × PyVal)}
    (h : SupportedD s l = true) : ∀ p ∈ l, SupportedAux s p.2 = true := by
  induction l with
  | nil => intro p hp; cases hp
  | cons a t ih =>
      obtain ⟨k, v⟩ := a
      rw [SupportedD, Bool.and_eq_true] at h
      intro p hp
      cases hp with
      | head => exact h.1
      | tail _ hp2 => exact ih h.2 p hp2

/-- Building a set from pairwise-unequal members (none of which equals a
member already present) inserts all of them in order. -/
theorem foldl_setInsert_of_pairNE :
    ∀ (es acc : List PyVal), (∀ a ∈ acc, ∀ v ∈ es, pyBEq a v = false) →
      pairNE es = true → es.foldl setInsert acc = acc ++ es := by
  intro es
  induction es with
  | nil => intro acc _ _; simp
  | cons v t ih =>
      intro acc hacc hne
      rw [pairNE, Bool.and_eq_true] at hne
      have hins : setInsert acc v = acc ++ [v] := by
        rw [setInsert, if_neg]
        simp only [List.any_eq_true, not_exists, not_and]
        intro a ha
        rw [hacc a ha v (by simp)]
        simp
      rw [List.foldl_cons, hins, ih (acc ++ [v]) ?_ hne.2]
      · simp
      · intro a ha u hu
        rw [List.mem_append] at ha
        cases ha with
        | inl ha2 => exact hacc a ha2 u (by simp [hu])
        | inr ha2 =>
            rw [List.mem_singleton] at ha2
            subst ha2
            have := List.all_eq_true.mp hne.1 u hu
            simpa using this

theorem rdFold_entry (k : String) (hk : ¬ k = "weekday") (n : Int) (st st2 : RD)
    (hset : rdSetField st k n = .ok st2) (ys : List (String × JVal)) :
    rdFold ((k, JVal.ji n) :: ys) st = rdFold ys st2 := by
  rw [rdFold, if_neg hk, hset]
  rfl

theorem rdStep_years (n : Int) (st : RD) (hst : st.years = 0) (ys : List (String × JVal)) :
    rdFold (optRel "years" n ++ ys) st = rdFold ys { st with years := n } := by
  by_cases hn : n = 0
  · subst hn
    have : ({ st with years := 0 } : RD) = st := by cases st; simp_all
    simp [optRel, this]
  · rw [show optRel "years" n = [("years", .ji n)] from by simp [optRel, hn],
      List.singleton_append, rdFold_entry "years" (by decide) n st _ rfl]

theorem rdStep_months (n : Int) (st : RD) (hst : st.months = 0) (ys : List (String × JVal)) :
    rdFold (optRel "months" n ++ ys) st = rdFold ys { st with months := n } := by
  by_cases hn : n = 0
  · subst hn
    have : ({ st with months := 0 } : RD) = st := by cases st; simp_all
    simp [optRel, this]
  · rw [show optRel "months" n = [("months", .ji n)] from by simp [optRel, hn],
      List.singleton_append, rdFold_entry "months" (by decide) n st _ rfl]

theorem rdStep_days (n : Int) (st : RD) (hst : st.days = 0) (ys : List (String × JVal)) :
    rdFold (optRel "days" n ++ ys) st = rdFold ys { st with days := n } := by
  by_cases hn : n = 0
  · subst hn
    have : ({ st with days := 0 } : RD) = st := by cases st; simp_all
    simp [optRel, this]
  · rw [show optRel "days" n = [("days", .ji n)] from by simp [optRel, hn],
      List.singleton_append, rdFold_entry "days" (by decide) n st _ rfl]

theorem rdStep_leapdays (n : Int) (st : RD) (hst : st.leapdays = 0) (ys : List (String × JVal)) :
    rdFold (optRel "leapdays" n ++ ys) st = rdFold ys { st with leapdays := n } := by
  by_cases hn : n = 0
  · subst hn
    have : ({ st with leapdays := 0 } : RD) = st := by cases st; simp_all
    simp [optRel, this]
  · rw [show optRel "leapdays" n = [("leapdays", .ji n)] from by simp [optRel, hn],
      List.singleton_append, rdFold_entry "leapdays" (by decide) n st _ rfl]

theorem rdStep_hours (n : Int) (st : RD) (hst : st.hours = 0) (ys : List (String × JVal)) :
    rdFold (optRel "hours" n ++ ys) st = rdFold ys { st with hours := n } := by
  by_cases hn : n = 0
  · subst hn
    have : ({ st with hours := 0 } : RD) = st := by cases st; simp_all
    simp [optRel, this]
  · rw [show optRel "hours" n = [("hours", .ji n)] from by simp [optRel, hn],
      List.singleton_append, rdFold_entry "hours" (by decide) n st _ rfl]

theorem rdStep_minutes (n : Int) (st : RD) (hst : st.minutes = 0) (ys : List (String × JVal)) :
    rdFold (optRel "minutes" n ++ ys) st = rdFold ys { st with minutes := n } := by
  by_cases hn : n = 0
  · subst hn
    have : ({ st with minutes := 0 } : RD) = st := by cases st; simp_all
    simp [optRel, this]
  · rw [show optRel "minutes" n = [("minutes", .ji n)] from by simp [optRel, hn],
      List.singleton_append, rdFold_entry "minutes" (by decide) n st _ rfl]

theorem rdStep_seconds (n : Int) (st : RD) (hst : st.seconds = 0) (ys : List (String × JVal)) :
    rdFold (optRel "seconds" n ++ ys) st = rdFold ys { st with seconds := n } := by
  by_cases hn : n = 0
  · subst hn
    have : ({ st with seconds := 0 } : RD) = st := by cases st; simp_all
    simp [optRel, this]
  · rw [show optRel "seconds" n = [("seconds", .ji n)] from by simp [optRel, hn],
      List.singleton_append, rdFold_entry "seconds" (by decide) n st _ rfl]

theorem rdStep_microseconds (n : Int) (st : RD) (hst : st.microseconds = 0) (ys : List (String × JVal)) :
    rdFold (optRel "microseconds" n ++ ys) st = rdFold ys { st with microseconds := n } := by
  by_cases hn : n = 0
  · subst hn
    have : ({ st with microseconds := 0 } : RD) = st := by cases st; simp_all
    simp [optRel, this]
  · rw [show optRel "microseconds" n = [("microseconds", .ji n)] from by simp [optRel, hn],
      List.singleton_append, rdFold_entry "microseconds" (by decide) n st _ rfl]

theorem rdStep_year (x : Option Int) (st : RD) (hst : st.year = none)
    (hnz : ¬ x = some 0) (ys : List (String × JVal)) :
    rdFold (optAbs "year" x ++ ys) st = rdFold ys { st with year := x } := by
  cases x with
  | none =>
      have : ({ st with year := none } : RD) = st := by cases st; simp_all
      simp [optAbs, this]
  | some n =>
      have hn : ¬ n = 0 := fun h => hnz (by rw [h])
      rw [show optAbs "year" (some n) = [("year", .ji n)] from by simp [optAbs, hn],
        List.singleton_append, rdFold_entry "year" (by decide) n st _ rfl]

theorem rdStep_month (x : Option Int) (st : RD) (hst : st.month = none)
    (hnz : ¬ x = some 0) (ys : List (String × JVal)) :
    rdFold (optAbs "month" x ++ ys) st = rdFold ys { st with month := x } := by
  cases x with
  | none =>
      have : ({ st with month := none } : RD) = st := by cases st; simp_all
      simp [optAbs, this]
  | some n =>
      have hn : ¬ n = 0 := fun h => hnz (by rw [h])
      rw [show optAbs "month" (some n) = [("month", .ji n)] from by simp [optAbs, hn],
        List.singleton_append, rdFold_entry "month" (by decide) n st _ rfl]

theorem rdStep_day (x : Option Int) (st : RD) (hst : st.day = none)
    (hnz : ¬ x = some 0) (ys : List (String × JVal)) :
    rdFold (optAbs "day" x ++ ys) st = rdFold ys { st with day := x } := by
  cases x with
  | none =>
      have : ({ st with day := none } : RD) = st := by cases st; simp_all
      simp [optAbs, this]
  | some n =>
      have hn : ¬ n = 0 := fun h => hnz (by rw [h])
      rw [show optAbs "day" (some n) = [("day", .ji n)] from by simp [optAbs, hn],
        List.singleton_append, rdFold_entry "day" (by decide) n st _ rfl]

theorem rdStep_hour (x : Option Int) (st : RD) (hst : st.hour = none)
    (hnz : ¬ x = some 0) (ys : List (String × JVal)) :
    rdFold (optAbs "hour" x ++ ys) st = rdFold ys { st with hour := x } := by
  cases x with
  | none =>
      have : ({ st with hour := none } : RD) = st := by cases st; simp_all
      simp [optAbs, this]
  | some n =>
      have hn : ¬ n = 0 := fun h => hnz (by rw [h])
      rw [show optAbs "hour" (some n) = [("hour", .ji n)] from by simp [optAbs, hn],
        List.singleton_append, rdFold_entry "hour" (by decide) n st _ rfl]

theorem rdStep_minute (x : Option Int) (st : RD) (hst : st.minute = none)
    (hnz : ¬ x = some 0) (ys : List (String × JVal)) :
    rdFold (optAbs "minute" x ++ ys) st = rdFold ys { st with minute := x } := by
  cases x with
  | none =>
      have : ({ st with minute := none } : RD) = st := by cases st; simp_all
      simp [optAbs, this]
  | some n =>
      have hn : ¬ n = 0 := fun h => hnz (by rw [h])
      rw [show optAbs "minute" (some n) = [("minute", .ji n)] from by simp [optAbs, hn],
        List.singleton_append, rdFold_entry "minute" (by decide) n st _ rfl]

theorem rdStep_second (x : Option Int) (st : RD) (hst : st.second = none)
    (hnz : ¬ x = some 0) (ys : List (String × JVal)) :
    rdFold (optAbs "second" x ++ ys) st = rdFold ys { st with second := x } := by
  cases x with
  | none =>
      have : ({ st with second := none } : RD) = st := by cases st; simp_all
      simp [optAbs, this]
  | some n =>
      have hn : ¬ n = 0 := fun h => hnz (by rw [h])
      rw [show optAbs "second" (some n) = [("second", .ji n)] from by simp [optAbs, hn],
        List.singleton_append, rdFold_entry "second" (by decide) n st _ rfl]

theorem rdStep_microsecond (x : Option Int) (st : RD) (hst : st.microsecond = none)
    (hnz : ¬ x = some 0) (ys : List (String × JVal)) :
    rdFold (optAbs "microsecond" x ++ ys) st = rdFold ys { st with microsecond := x } := by
  cases x with
  | none =>
      have : ({ st with microsecond := none } : RD) = st := by cases st; simp_all
      simp [optAbs, this]
  | some n =>
      have hn : ¬ n = 0 := fun h => hnz (by rw [h])
      rw [show optAbs "microsecond" (some n) = [("microsecond", .ji n)] from by simp [optAbs, hn],
        List.singleton_append, rdFold_entry "microsecond" (by decide) n st _ rfl]

/-- Weekday entries are passed through by the keyword fold (the caller
handles them). -/
theorem rdFold_weekdayEnc (wk : Option (Int × Option Int)) (st : RD) :
    rdFold (rdWeekdayEnc wk) st = .ok st := by
  match wk with
  | none => rfl
  | some (wd, none) => rfl
  | some (wd, some n) =>
      by_cases hn : n = 0
      · subst hn
        rfl
      · rw [show rdWeekdayEnc (some (wd, some n)) = [("weekday", .jarr [.ji wd, .ji n])] from by
          simp [rdWeekdayEnc, hn]]
        rfl

/-- The keyword fold over an encoded recurrence rule reassembles all
components except the weekday, provided no absolute component is a falsy
zero. -/
theorem rdFold_rdEncode (r : RD) (h : rdNoFalsyAbs r = true) :
    rdFold (rdEncode r) {} = .ok { r with weekday := none } := by
  rw [rdNoFalsyAbs] at h
  simp only [Bool.and_eq_true, bne_iff_ne, ne_eq] at h
  obtain ⟨⟨⟨⟨⟨⟨⟨h1, h2⟩, h3⟩, h4⟩, h5⟩, h6⟩, h7⟩, _⟩ := h
  rw [rdEncode,
    rdStep_years r.years _ rfl,
    rdStep_months r.months _ rfl,
    rdStep_days r.days _ rfl,
    rdStep_leapdays r.leapdays _ rfl,
    rdStep_hours r.hours _ rfl,
    rdStep_minutes r.minutes _ rfl,
    rdStep_seconds r.seconds _ rfl,
    rdStep_microseconds r.microseconds _ rfl,
    rdStep_year r.year _ rfl h1,
    rdStep_month r.month _ rfl h2,
    rdStep_day r.day _ rfl h3,
    rdStep_hour r.hour _ rfl h4,
    rdStep_minute r.minute _ rfl h5,
    rdStep_second r.second _ rfl h6,
    rdStep_microsecond r.microsecond _ rfl h7,
    rdFold_weekdayEnc]

theorem lookupD_optRel_skip (k0 : String) (n : Int) (ys : JObj) (key : String)
    (hk : ¬ k0 = key) : lookupD (optRel k0 n ++ ys) key = lookupD ys key := by
  by_cases hn : n = 0
  · simp [optRel, hn]
  · simp [optRel, hn, lookupD, hk]

theorem lookupD_optAbs_skip (k0 : String) (x : Option Int) (ys : JObj) (key : String)
    (hk : ¬ k0 = key) : lookupD (optAbs k0 x ++ ys) key = lookupD ys key := by
  cases x with
  | none => simp [optAbs]
  | some n =>
      by_cases hn : n = 0
      · simp [optAbs, hn]
      · simp [optAbs, hn, lookupD, hk]

/-- The weekday entry of an encoded recurrence rule. -/
theorem lookupD_rdEncode_weekday (r : RD) :
    lookupD (rdEncode r) "weekday" =
      (match r.weekday with
        | none => none
        | some (wd, none) => some (.jarr [.ji wd])
        | some (wd, some n) =>
            if n = 0 then some (.jarr [.ji wd]) else some (.jarr [.ji wd, .ji n])) := by
  rw [rdEncode,
    lookupD_optRel_skip "years" _ _ _ (by decide),
    lookupD_optRel_skip "months" _ _ _ (by decide),
    lookupD_optRel_skip "days" _ _ _ (by decide),
    lookupD_optRel_skip "leapdays" _ _ _ (by decide),
    lookupD_optRel_skip "hours" _ _ _ (by decide),
    lookupD_optRel_skip "minutes" _ _ _ (by decide),
    lookupD_optRel_skip "seconds" _ _ _ (by decide),
    lookupD_optRel_skip "microseconds" _ _ _ (by decide),
    lookupD_optAbs_skip "year" _ _ _ (by decide),
    lookupD_optAbs_skip "month" _ _ _ (by decide),
    lookupD_optAbs_skip "day" _ _ _ (by decide),
    lookupD_optAbs_skip "hour" _ _ _ (by decide),
    lookupD_optAbs_skip "minute" _ _ _ (by decide),
    lookupD_optAbs_skip "second" _ _ _ (by decide),
    lookupD_optAbs_skip "microsecond" _ _ _ (by decide)]
  match hw : r.weekday with
  | none => rfl
  | some (wd, none) => rfl
  | some (wd, some n) =>
      by_cases hn : n = 0
      · subst hn
        rfl
      · rw [show rdWeekdayEnc (some (wd, some n)) = [("weekday", .jarr [.ji wd, .ji n])] from by
          simp [rdWeekdayEnc, hn]]
        simp [lookupD, hn]

theorem lookupD_rdEncode_wk_none (r : RD) (hw : r.weekday = none) :
    lookupD (rdEncode r) "weekday" = none := by
  rw [lookupD_rdEncode_weekday, hw]

theorem lookupD_rdEncode_wk_plain (r : RD) (wd : Int) (hw : r.weekday = some (wd, none)) :
    lookupD (rdEncode r) "weekday" = some (.jarr [.ji wd]) := by
  rw [lookupD_rdEncode_weekday, hw]

theorem lookupD_rdEncode_wk_ord (r : RD) (wd n : Int)
    (hw : r.weekday = some (wd, some n)) (hn : ¬ n = 0) :
    lookupD (rdEncode r) "weekday" = some (.jarr [.ji wd, .ji n]) := by
  rw [lookupD_rdEncode_weekday, hw]
  simp [hn]

/-- The relativedelta branch inverts the relativedelta encoding for every
recurrence rule without falsy absolute components. -/
theorem rdDecode_rdEncode (r : RD) (h : rdNoFalsyAbs r = true) :
    ∃ rm2, rdDecode (rdEncode r) = .ok (.prdelta r, rm2) := by
  have hwkn : (match r.weekday with
      | some (_, some n) => n != 0
      | _ => true) = true := by
    rw [rdNoFalsyAbs] at h
    simp only [Bool.and_eq_true] at h
    exact h.2
  match hw : r.weekday with
  | none =>
      rw [rdDecode, lookupD_rdEncode_wk_none r hw]
      refine ⟨rdEncode r, ?_⟩
      rw [rdFold_rdEncode r h]
      have h2 : ({ r with weekday := none } : RD) = r := by cases r; simp_all
      exact congrArg (fun st => Except.ok (PyVal.prdelta st, rdEncode r)) h2
  | some (wd, none) =>
      rw [rdDecode, lookupD_rdEncode_wk_plain r wd hw]
      refine ⟨jobjSet (rdEncode r) "weekday" (.jweekday wd none), ?_⟩
      rw [rdFold_rdEncode r h]
      have h2 : ({ { r with weekday := none } with weekday := some (wd, none) } : RD) = r := by
        cases r; simp_all
      exact congrArg
        (fun st => Except.ok (PyVal.prdelta st, jobjSet (rdEncode r) "weekday" (.jweekday wd none))) h2
  | some (wd, some n) =>
      have hn : ¬ n = 0 := by
        rw [hw] at hwkn
        simpa using hwkn
      rw [rdDecode, lookupD_rdEncode_wk_ord r wd n hw hn]
      refine ⟨jobjSet (rdEncode r) "weekday" (.jweekday wd (some n)), ?_⟩
      rw [rdFold_rdEncode r h]
      have h2 : ({ { r with weekday := none } with weekday := some (wd, some n) } : RD) = r := by
        cases r; simp_all
      exact congrArg
        (fun st => Except.ok (PyVal.prdelta st, jobjSet (rdEncode r) "weekday" (.jweekday wd (some n)))) h2

theorem serL_cons (v : PyVal) (t : List PyVal) :
    serL (v :: t) = serialize v :: serL t := rfl

theorem serD_cons (k : String) (v : PyVal) (t : List (String × PyVal)) :
    serD ((k, v) :: t) = (k, serialize v) :: serD t := rfl

/-- _deserialize on a dict envelope is the dict branch. -/
theorem deser_dict_env (dm : List (String × JVal)) :
    deser (mkEnc (.jobj dm) "dict") =
      (match deserD dm with
        | .ok (vs, rs) => .ok (.pdict vs, mkEnc (.jobj rs) "dict")
        | .error e => .error e) := by
  cases hr : deserD dm with
  | ok p =>
      obtain ⟨vs, rs⟩ := p
      show Except.bind (deserD dm) _ = _
      rw [hr]
      rfl
  | error e =>
      show Except.bind (deserD dm) _ = _
      rw [hr]
      rfl

/-- _deserialize on a set envelope is the set branch. -/
theorem deser_set_env (l : List JVal) :
    deser (mkEnc (.jarr l) "set") =
      (match deserL l with
        | .ok (vs, rs) => .ok (.pset (vs.foldl setInsert []), mkEnc (.jarr rs) "set")
        | .error e => .error e) := by
  cases hr : deserL l with
  | ok p =>
      obtain ⟨vs, rs⟩ := p
      show Except.bind (deserL l) _ = _
      rw [hr]
      rfl
  | error e =>
      show Except.bind (deserL l) _ = _
      rw [hr]
      rfl

/-- _deserialize on a tuple envelope is the tuple branch. -/
theorem deser_tuple_env (l : List JVal) :
    deser (mkEnc (.jarr l) "tuple") =
      (match deserL l with
        | .ok (vs, rs) => .ok (.ptuple vs, mkEnc (.jarr rs) "tuple")
        | .error e => .error e) := by
  cases hr : deserL l with
  | ok p =>
      obtain ⟨vs, rs⟩ := p
      show Except.bind (deserL l) _ = _
      rw [hr]
      rfl
  | error e =>
      show Except.bind (deserL l) _ = _
      rw [hr]
      rfl

/-- Elementwise round trip lifts to encoded lists. -/
theorem rtL_of_elems : ∀ l : List PyVal,
    (∀ v ∈ l, ∃ r, deser (serialize v) = .ok (v, r)) →
    ∃ rs, deserL (serL l) = .ok (l, rs) := by
  intro l
  induction l with
  | nil => exact fun _ => ⟨[], rfl⟩
  | cons v t ih =>
      intro hall
      obtain ⟨r, hr⟩ := hall v (by simp)
      obtain ⟨rs, hrs⟩ := ih (fun u hu => hall u (by simp [hu]))
      refine ⟨r :: rs, ?_⟩
      show Except.bind (deser (serialize v)) _ = _
      rw [hr]
      show Except.bind (deserL (serL t)) _ = _
      rw [hrs]
      rfl

/-- Elementwise round trip lifts to encoded dict payloads. -/
theorem rtD_of_elems : ∀ l : List (String × PyVal),
    (∀ p ∈ l, ∃ r, deser (serialize p.2) = .ok (p.2, r)) →
    ∃ rs, deserD (serD l) = .ok (l, rs) := by
  intro l
  induction l with
  | nil => exact fun _ => ⟨[], rfl⟩
  | cons p t ih =>
      obtain ⟨k, v⟩ := p
      intro hall
      obtain ⟨r, hr⟩ := hall (k, v) (by simp)
      obtain ⟨rs, hrs⟩ := ih (fun u hu => hall u (by simp [hu]))
      refine ⟨(k, r) :: rs, ?_⟩
      show Except.bind (deser (serialize v)) _ = _
      rw [hr]
      show Except.bind (deserD (serD t)) _ = _
      rw [hrs]
      rfl

theorem rt_aux : ∀ n : Nat, ∀ v : PyVal, sizeOf v ≤ n → SupportedAux true v = true →
    ∃ r, deser (serialize v) = .ok (v, r) := by
  intro n
  induction n with
  | zero =>
      intro v hsz
      exact absurd hsz (by cases v <;> simp_arith)
  | succ n ih =>
      intro v hsz hsup
      match v with
      | .pnone => exact ⟨.jnull, rfl⟩
      | .pbool b => exact ⟨.jb b, rfl⟩
      | .pint k => exact ⟨.ji k, rfl⟩
      | .pstr s => exact ⟨.js s, rfl⟩
      | .pdatetime ts => exact ⟨mkEnc (.ji ts) "datetime", rfl⟩
      | .ptimedelta sec => exact ⟨mkEnc (.ji sec) "timedelta", rfl⟩
      | .ptimezone nm => exact ⟨mkEnc (.js nm) "timezone", rfl⟩
      | .prdelta r =>
          have hr : rdNoFalsyAbs r = true := by simpa [SupportedAux] using hsup
          obtain ⟨rm2, hrm⟩ := rdDecode_rdEncode r hr
          refine ⟨mkEnc (.jobj rm2) "relativedelta", ?_⟩
          rw [show serialize (.prdelta r) = mkEnc (.jobj (rdEncode r)) "relativedelta" from rfl,
            deser_rdelta_env, hrm]
      | .pdict es =>
          have hd : SupportedD true es = true := by
            rw [SupportedAux, Bool.and_eq_true] at hsup
            exact hsup.2
          have helems : ∀ p ∈ es, ∃ r2, deser (serialize p.2) = .ok (p.2, r2) := by
            intro p hp
            have h1 : sizeOf p < sizeOf es := List.sizeOf_lt_of_mem hp
            have h2 : sizeOf p.2 < sizeOf p := by
              obtain ⟨a, b⟩ := p
              simp_arith
            have h3 : sizeOf (PyVal.pdict es) = 1 + sizeOf es := by simp_arith
            exact ih p.2 (by omega) (supportedD_mem hd p hp)
          obtain ⟨rs, hrs⟩ := rtD_of_elems es helems
          refine ⟨mkEnc (.jobj rs) "dict", ?_⟩
          rw [show serialize (.pdict es) = mkEnc (.jobj (serD es)) "dict" from rfl,
            deser_dict_env, hrs]
      | .plist es =>
          have hl : SupportedL true es = true := by simpa [SupportedAux] using hsup
          have helems : ∀ u ∈ es, ∃ r2, deser (serialize u) = .ok (u, r2) := by
            intro u hu
            have h1 : sizeOf u < sizeOf es := List.sizeOf_lt_of_mem hu
            have h3 : sizeOf (PyVal.plist es) = 1 + sizeOf es := by simp_arith
            exact ih u (by omega) (supportedL_mem hl u hu)
          obtain ⟨rs, hrs⟩ := rtL_of_elems es helems
          refine ⟨.jarr rs, ?_⟩
          rw [show serialize (.plist es) = .jarr (serL es) from rfl]
          show Except.bind (deserL (serL es)) _ = _
          rw [hrs]
          rfl
      | .pset es =>
          have hboth : SupportedL true es = true ∧ pairNE es = true := by
            rw [SupportedAux, Bool.and_eq_true] at hsup
            exact hsup
          have helems : ∀ u ∈ es, ∃ r2, deser (serialize u) = .ok (u, r2) := by
            intro u hu
            have h1 : sizeOf u < sizeOf es := List.sizeOf_lt_of_mem hu
            have h3 : sizeOf (PyVal.pset es) = 1 + sizeOf es := by simp_arith
            exact ih u (by omega) (supportedL_mem hboth.1 u hu)
          obtain ⟨rs, hrs⟩ := rtL_of_elems es helems
          refine ⟨mkEnc (.jarr rs) "set", ?_⟩
          rw [show serialize (.pset es) = mkEnc (.jarr (serL es)) "set" from rfl,
            deser_set_env, hrs]
          show Except.ok (PyVal.pset (es.foldl setInsert []), mkEnc (JVal.jarr rs) "set") =
            Except.ok (PyVal.pset es, mkEnc (JVal.jarr rs) "set")
          rw [foldl_setInsert_of_pairNE es [] (by intro a ha; cases ha) hboth.2,
            List.nil_append]
      | .ptuple es =>
          have hl : SupportedL true es = true := by simpa [SupportedAux] using hsup
          have helems : ∀ u ∈ es, ∃ r2, deser (serialize u) = .ok (u, r2) := by
            intro u hu
            have h1 : sizeOf u < sizeOf es := List.sizeOf_lt_of_mem hu
            have h3 : sizeOf (PyVal.ptuple es) = 1 + sizeOf es := by simp_arith
            exact ih u (by omega) (supportedL_mem hl u hu)
          obtain ⟨rs, hrs⟩ := rtL_of_elems es helems
          refine ⟨mkEnc (.jarr rs) "tuple", ?_⟩
          rw [show serialize (.ptuple es) = mkEnc (.jarr (serL es)) "tuple" from rfl,
            deser_tuple_env, hrs]
      | .pop c m2 hd ow at2 => exact absurd hsup (by simp [SupportedAux])
      | .pdag at2 => exact absurd hsup (by simp [SupportedAux])
      | .pcallable sc tx => exact absurd hsup (by simp [SupportedAux])
      | .pother e2 s2 t2 => exact absurd hsup (by simp [SupportedAux])
      | .pdagref => exact absurd hsup (by simp [SupportedAux])

/-- C4 amended: for every supported value whose recurrence rules carry no
explicit-zero absolute component and no zero weekday ordinal, decode of
encode is the identity. -/
theorem c4_round_trip_strict (v : PyVal) (h : SupportedAux true v = true) :
    deserV (serialize v) = .ok v := by
  obtain ⟨r, hr⟩ := rt_aux (sizeOf v) v (le_refl _) h
  rw [deserV, hr]
  rfl

/-- Witness for c4_round_trip_strict: the set {1, 2, 3} (and, through the
same theorem, any nesting of supported values) decodes from its encoding
back to itself. -/
theorem c4_round_trip_witness :
    deserV (serialize (.pset [.pint 1, .pint 2, .pint 3])) =
      .ok (.pset [.pint 1, .pint 2, .pint 3]) :=
  c4_round_trip_strict (.pset [.pint 1, .pint 2, .pint 3]) rfl

/-- C4 counterexample: the recurrence rule with absolute component
hour = 0 is a supported value, but its encoding drops the falsy zero
component, and decoding yields the rule with hour unset, which is not
structurally equal to the original. -/
theorem c4_counterexample :
    SupportedAux false (.prdelta { hour := some 0 }) = true ∧
    deserV (serialize (.prdelta { hour := some 0 })) = .ok (.prdelta {}) ∧
    deserV (serialize (.prdelta { hour := some 0 })) ≠ .ok (.prdelta { hour := some 0 }) := by
  refine ⟨rfl, rfl, ?_⟩
  intro hEq
  rw [show deserV (serialize (.prdelta { hour := some 0 })) = .ok (.prdelta {}) from rfl] at hEq
  simp at hEq

/-! ## Claim C8: date inheritance through encode and decode -/

theorem lookupA_setA (a : Attrs) (key : String) (o : Nat) (v : PyVal) (k : String) :
    lookupA (setA a key o v) k = if key = k then some (o, v) else lookupA a k := by
  induction a with
  | nil =>
      by_cases hk : key = k <;> simp [setA, lookupA, hk]
  | cons h t ih =>
      obtain ⟨k0, o0, v0⟩ := h
      by_cases h0 : k0 = key
      · subst h0
        by_cases hk : k0 = k <;> simp [setA, lookupA, hk]
      · by_cases hk : k0 = k
        · subst hk
          have : ¬ key = k0 := fun hh => h0 hh.symm
          simp [setA, lookupA, h0, this]
        · simp [setA, lookupA, h0, hk, ih]

theorem lookupP_setP (a : List (String × PyVal)) (key : String) (v : PyVal) (k : String) :
    lookupP (setP a key v) k = if key = k then some v else lookupP a k := by
  induction a with
  | nil =>
      by_cases hk : key = k <;> simp [setP, lookupP, hk]
  | cons h t ih =>
      obtain ⟨k0, v0⟩ := h
      by_cases h0 : k0 = key
      · subst h0
        by_cases hk : k0 = k <;> simp [setP, lookupP, hk]
      · by_cases hk : k0 = k
        · subst hk
          have : ¬ key = k0 := fun hh => h0 hh.symm
          simp [setP, lookupP, h0, this]
        · simp [setP, lookupP, h0, hk, ih]

theorem setP_keys (a : List (String × PyVal)) (key : String) (v : PyVal)
    (hmem : key ∈ a.map Prod.fst) : (setP a key v).map Prod.fst = a.map Prod.fst := by
  induction a with
  | nil => cases hmem
  | cons h t ih =>
      obtain ⟨k0, v0⟩ := h
      by_cases h0 : k0 = key
      · simp [setP, h0]
      · have hmem2 : key ∈ t.map Prod.fst := by
          rcases (by simpa using hmem : key = k0 ∨ ∃ x, (key, x) ∈ t) with h1 | ⟨x, h1⟩
          · exact absurd h1.symm h0
          · exact List.mem_map.mpr ⟨(key, x), h1, rfl⟩
        simp [setP, h0, ih hmem2]

theorem mem_foldl_setInsert (l : List PyVal) :
    ∀ acc x, x ∈ l.foldl setInsert acc → x ∈ acc ∨ x ∈ l := by
  induction l with
  | nil => intro acc x h; exact .inl h
  | cons v t ih =>
      intro acc x h
      rw [List.foldl_cons] at h
      rcases ih (setInsert acc v) x h with h2 | h2
      · rw [setInsert] at h2
        by_cases hc : acc.any (fun w => pyBEq w v) = true
        · rw [if_pos hc] at h2
          exact .inl h2
        · rw [if_neg hc] at h2
          rcases List.mem_append.mp h2 with h3 | h3
          · exact .inl h3
          · exact .inr (by simp_all)
      · exact .inr (by simp [h2])

theorem jobjSet_append_of_absent (m : JObj) (k : String) (v : JVal)
    (h : lookupD m k = none) : jobjSet m k v = m ++ [(k, v)] := by
  induction m with
  | nil => rfl
  | cons h0 t ih =>
      obtain ⟨k0, v0⟩ := h0
      rw [lookupD] at h
      by_cases hk : k0 = k
      · rw [if_pos hk] at h
        cases h
      · rw [if_neg hk] at h
        simp [jobjSet, hk, ih h]

theorem pySetEls_map_js (l : List String) :
    pySetEls (l.map .js) = .ok (l.map .pstr) := by
  induction l with
  | nil => rfl
  | cons s t ih =>
      show Except.bind (pySetEls (t.map .js)) _ = _
      rw [ih]
      rfl

theorem serL_map_pstr (l : List String) : serL (l.map .pstr) = l.map .js := by
  induction l with
  | nil => rfl
  | cons s t ih =>
      simp [serL, ih]
      rfl

/-- The payload entry a date-suffixed field of a generated node receives:
absent when the value is None or when the operator exclusion rule drops it
against the owning-graph attributes, else the bare timestamp (the datetime
envelope is unwrapped by the single-key shortcut). -/
def dateEntry (k : String) (gAttrs : Attrs) (td : Option (Nat × Int)) : JObj :=
  match td with
  | none => []
  | some (o, ts) =>
      if opIsExcluded opCtorDefaults true gAttrs k (o + 1) (.pdatetime ts) then []
      else [(k, .ji ts)]

/-- Encoding of a generated node: its payload lists the key, the
non-elided dates as bare timestamps, the reverse-edge keys, and the node
identity metadata. -/
theorem serialize_mkOpV (g : DagData) (t : OpData) :
    serialize (mkOpV g t) =
      .jobj (("task_id", .js t.tid) ::
        (dateEntry "start_date" (dagScalarAttrs g) t.startD ++
          (dateEntry "end_date" (dagScalarAttrs g) t.endD ++
            [("_downstream_task_ids", .jarr (t.downstream.map .js)),
             ("_task_type", .js "Op"), ("_task_module", .js "mod")]))) := by
  have hds : serL (t.downstream.map .pstr) = t.downstream.map .js := serL_map_pstr _
  have eT : ∀ a : String, opIsExcluded opCtorDefaults true (dagScalarAttrs g)
      "task_id" 1 (.pstr a) = false := fun _ => rfl
  have eD : ∀ l : List String, opIsExcluded opCtorDefaults true (dagScalarAttrs g)
      "_downstream_task_ids" 1 (.pset (l.map .pstr)) = false := fun _ => rfl
  have eS : opIsExcluded opCtorDefaults true (dagScalarAttrs g)
      "subdag" 0 .pnone = true := rfl
  have eSd : opIsExcluded opCtorDefaults true (dagScalarAttrs g)
      "start_date" 0 .pnone = true := rfl
  have eEd : opIsExcluded opCtorDefaults true (dagScalarAttrs g)
      "end_date" 0 .pnone = true := rfl
  rcases htd : t.startD with _ | ⟨o1, ts1⟩ <;> rcases hte : t.endD with _ | ⟨o2, ts2⟩
  · simp [serialize, serializeCore, buildJson, storedValue, serAttrs, mkOpV,
      dateAttr, lookupA, lookupD, hasK, jobjSet, varKey, typeKey, mkEnc, dateEntry,
      opDecoratedFields, opSerializedFields, htd, hte, hds, eT, eD, eS, eSd, eEd]
    rfl
  · by_cases hc2 : opIsExcluded opCtorDefaults true (dagScalarAttrs g) "end_date" (o2 + 1)
        (.pdatetime ts2) = true <;>
      simp [serialize, serializeCore, buildJson, storedValue, serAttrs, mkOpV,
        dateAttr, lookupA, lookupD, hasK, jobjSet, varKey, typeKey, mkEnc, dateEntry,
        opDecoratedFields, opSerializedFields, htd, hte, hds, eT, eD, eS, eSd, eEd,
        hc2] <;> rfl
  · by_cases hc1 : opIsExcluded opCtorDefaults true (dagScalarAttrs g) "start_date" (o1 + 1)
        (.pdatetime ts1) = true <;>
      simp [serialize, serializeCore, buildJson, storedValue, serAttrs, mkOpV,
        dateAttr, lookupA, lookupD, hasK, jobjSet, varKey, typeKey, mkEnc, dateEntry,
        opDecoratedFields, opSerializedFields, htd, hte, hds, eT, eD, eS, eSd, eEd,
        hc1] <;> rfl
  · by_cases hc1 : opIsExcluded opCtorDefaults true (dagScalarAttrs g) "start_date" (o1 + 1)
        (.pdatetime ts1) = true <;>
      by_cases hc2 : opIsExcluded opCtorDefaults true (dagScalarAttrs g) "end_date" (o2 + 1)
        (.pdatetime ts2) = true <;>
      simp [serialize, serializeCore, buildJson, storedValue, serAttrs, mkOpV,
        dateAttr, lookupA, lookupD, hasK, jobjSet, varKey, typeKey, mkEnc, dateEntry,
        opDecoratedFields, opSerializedFields, htd, hte, hds, eT, eD, eS, eSd, eEd,
        hc1, hc2] <;> rfl

/-- The wire payload of a generated node, per serialize_mkOpV. -/
def opPayload (g : DagData) (t : OpData) : JObj :=
  ("task_id", .js t.tid) ::
    (dateEntry "start_date" (dagScalarAttrs g) t.startD ++
      (dateEntry "end_date" (dagScalarAttrs g) t.endD ++
        [("_downstream_task_ids", .jarr (t.downstream.map .js)),
         ("_task_type", .js "Op"), ("_task_module", .js "mod")]))

theorem serializeCore_of_obj (v : PyVal) (m : JObj) (h : serialize v = .jobj m) :
    serializeCore v = .ok (.jobj m) := by
  cases hc : serializeCore v with
  | ok w => rw [serialize, hc] at h; simp only [] at h; rw [h]
  | error e => rw [serialize, hc] at h; exact absurd h (by simp [FAILED])

/-- The payload entry a date field of a generated graph receives: the
graph exclusion rule has no date clause, so only a None date is elided. -/
def dagDateEntry (k : String) (gd : Option (Nat × Int)) : JObj :=
  match gd with
  | none => []
  | some (_, ts) => [(k, .ji ts)]

theorem serVals_map (g : DagData) (l : List OpData) :
    serVals (l.map (fun t => (t.tid, mkOpV g t))) =
      l.map (fun t => serialize (mkOpV g t)) := by
  induction l with
  | nil => rfl
  | cons t r ih =>
      have h := serializeCore_of_obj (mkOpV g t) (opPayload g t) (serialize_mkOpV g t)
      simp [serVals, ih, h, serialize_mkOpV g t, serialize, opPayload]

/-- Encoding of a generated graph: identity fields, the non-None dates as
bare timestamps, and the encoded nodes in declaration order. -/
theorem serialize_dag_mkDag (g : DagData) :
    serialize_dag (mkDagAttrs g) =
      .ok (.jobj (("_dag_id", .js g.did) :: ("fileloc", .js g.floc) ::
        (dagDateEntry "start_date" g.startD ++
          (dagDateEntry "end_date" g.endD ++
            [("tasks", .jarr (g.tasks.map (fun t => .jobj (opPayload g t))))])))) := by
  have hv := serVals_map g g.tasks
  have hp : ∀ t ∈ g.tasks, serialize (mkOpV g t) = .jobj (opPayload g t) := by
    intro t _; exact serialize_mkOpV g t
  rcases hsd : g.startD with _ | ⟨o1, ts1⟩ <;> rcases hed : g.endD with _ | ⟨o2, ts2⟩ <;>
    simp [serialize_dag, buildJson, storedValue, serAttrs, mkDagAttrs, dagScalarAttrs,
      dateAttr, baseIsExcluded, isNoneV, isExcludedType, valueIsHardcodedDefault,
      dagCtorDefaults, dagSerializedFields, dagDecoratedFields, lookupA, lookupD, hasK,
      jobjSet, varKey, typeKey, mkEnc, serTasksOf, dagDateEntry, hsd, hed, hv,
      List.map_congr_left hp] <;> rfl

/-- The decoded value of a date field of a generated node: None when the
encoder elided it (either unset or dropped by the exclusion rule against
the owning graph), else the timestamp as a datetime. -/
def decDate (g : DagData) (k : String) (td : Option (Nat × Int)) : PyVal :=
  match td with
  | none => .pnone
  | some (o, ts) =>
      if opIsExcluded opCtorDefaults true (dagScalarAttrs g) k (o + 1) (.pdatetime ts) then
        .pnone
      else .pdatetime ts

/-- The member list of a decoded reverse-edge set. -/
def dsSetOf (ds : List String) : List PyVal := (ds.map .pstr).foldl setInsert []

/-- The attributes of a decoded generated node, before graph
post-processing. -/
def decOpAttrs (g : DagData) (t : OpData) : Attrs :=
  [("task_id", 0, .pstr t.tid), ("_upstream_task_ids", 0, .pset []),
   ("_downstream_task_ids", 0, .pset (dsSetOf t.downstream)),
   ("start_date", 0, decDate g "start_date" t.startD),
   ("end_date", 0, decDate g "end_date" t.endD),
   ("subdag", 0, .pnone), ("operator_extra_links", 0, .plist []),
   ("_task_type", 0, .pstr "Op"), ("_task_module", 0, .pstr "mod")]

/-- A decoded generated node, before graph post-processing. -/
def decodedOp (g : DagData) (t : OpData) : PyVal :=
  .pop "SerializedBaseOperator" "airflow.serialization.serialized_objects"
    false [] (decOpAttrs g t)

/-- Decoding the payload of a generated node yields exactly the canonical
decoded node. -/
theorem deserialize_operator_opPayload (g : DagData) (t : OpData) :
    deserialize_operator (.jobj (opPayload g t)) = .ok (decodedOp g t) := by
  have hds : pySetOf (.jarr (t.downstream.map .js)) =
      .ok (.pset (dsSetOf t.downstream)) := by
    show Except.bind (pySetEls (t.downstream.map .js)) _ = _
    rw [pySetEls_map_js]
    rfl
  have ew1 : endsWithM "task_id" "_date" = false := rfl
  have ew2 : endsWithM "start_date" "_date" = true := rfl
  have ew3 : endsWithM "end_date" "_date" = true := rfl
  have ew4 : endsWithM "_downstream_task_ids" "_date" = false := rfl
  have ew5 : endsWithM "_task_type" "_date" = false := rfl
  have ew6 : endsWithM "_task_module" "_date" = false := rfl
  rcases htd : t.startD with _ | ⟨o1, ts1⟩ <;> rcases hte : t.endD with _ | ⟨o2, ts2⟩
  · simp [deserialize_operator, opPayload, opShellFor, opLoop, opAssemble, mkOpShell,
      setA, setNones, keysOf, opSerializedFields, opDecoratedFields, opCtorDefaults,
      jvalToPy, asDatetime, dateEntry, decDate, decOpAttrs, decodedOp, lookupD, deser,
      htd, hte, hds, ew1, ew2, ew3, ew4, ew5, ew6]
    rfl
  · by_cases hc2 : opIsExcluded [] true (dagScalarAttrs g) "end_date" (o2 + 1)
        (.pdatetime ts2) = true <;>
      simp [deserialize_operator, opPayload, opShellFor, opLoop, opAssemble, mkOpShell,
        setA, setNones, keysOf, opSerializedFields, opDecoratedFields, opCtorDefaults,
        jvalToPy, asDatetime, dateEntry, decDate, decOpAttrs, decodedOp, lookupD, deser,
        htd, hte, hds, ew1, ew2, ew3, ew4, ew5, ew6, hc2] <;> rfl
  · by_cases hc1 : opIsExcluded [] true (dagScalarAttrs g) "start_date" (o1 + 1)
        (.pdatetime ts1) = true <;>
      simp [deserialize_operator, opPayload, opShellFor, opLoop, opAssemble, mkOpShell,
        setA, setNones, keysOf, opSerializedFields, opDecoratedFields, opCtorDefaults,
        jvalToPy, asDatetime, dateEntry, decDate, decOpAttrs, decodedOp, lookupD, deser,
        htd, hte, hds, ew1, ew2, ew3, ew4, ew5, ew6, hc1] <;> rfl
  · by_cases hc1 : opIsExcluded [] true (dagScalarAttrs g) "start_date" (o1 + 1)
        (.pdatetime ts1) = true <;>
      by_cases hc2 : opIsExcluded [] true (dagScalarAttrs g) "end_date" (o2 + 1)
        (.pdatetime ts2) = true <;>
      simp [deserialize_operator, opPayload, opShellFor, opLoop, opAssemble, mkOpShell,
        setA, setNones, keysOf, opSerializedFields, opDecoratedFields, opCtorDefaults,
        jvalToPy, asDatetime, dateEntry, decDate, decOpAttrs, decodedOp, lookupD, deser,
        htd, hte, hds, ew1, ew2, ew3, ew4, ew5, ew6, hc1, hc2] <;> rfl

/-- The decoded value of a date field of a generated graph. -/
def dagDecDate : Option (Nat × Int) → PyVal
  | none => .pnone
  | some (_, ts) => .pdatetime ts

/-- The wire payload of a generated graph, per serialize_dag_mkDag. -/
def dagPayload (g : DagData) : JObj :=
  ("_dag_id", .js g.did) :: ("fileloc", .js g.floc) ::
    (dagDateEntry "start_date" g.startD ++
      (dagDateEntry "end_date" g.endD ++
        [("tasks", .jarr (g.tasks.map (fun t => .jobj (opPayload g t))))]))

/-- The task dictionary a decoded generated graph holds before
post-processing: a Python dict built by inserting each decoded node under
its key in declaration order. -/
def tdEntries (g : DagData) : List (String × PyVal) :=
  g.tasks.foldl (fun a t => setP a t.tid (decodedOp g t)) []

/-- The attributes of a decoded generated graph, parametric in the task
dictionary (which post-processing rewrites in place). -/
def dagDecAttrs (g : DagData) (td : List (String × PyVal)) : Attrs :=
  [("_dag_id", 0, .pstr g.did), ("task_dict", 0, .pdict td),
   ("fileloc", 0, .pstr g.floc), ("start_date", 0, dagDecDate g.startD),
   ("end_date", 0, dagDecDate g.endD), ("full_filepath", 0, .pstr g.floc)]

/-- The tasks branch of dagLoop decodes each node payload and inserts it
under its key. -/
theorem taskEntries_payloads (g : DagData) :
    ∀ (l : List OpData) (acc : List (String × PyVal)),
      taskEntries (l.map (fun t => .jobj (opPayload g t))) acc =
        .ok (l.foldl (fun a t => setP a t.tid (decodedOp g t)) acc) := by
  intro l
  induction l with
  | nil => intro acc; rfl
  | cons t r ih =>
      intro acc
      show Except.bind (deserialize_operator (.jobj (opPayload g t))) _ = _
      rw [deserialize_operator_opPayload]
      exact ih _

/-- Decoding the payload of a generated graph reaches the post-processing
loop on the decoded task dictionary and wraps its result back into the
graph attributes. -/
theorem deserialize_dag_payload (g : DagData) :
    deserialize_dag (.jobj (dagPayload g)) =
      (postLoop (dagDecAttrs g (tdEntries g)) (tdEntries g)
        ((tdEntries g).map Prod.fst)).bind
        (fun st2 => .ok (.pdag (dagDecAttrs g st2))) := by
  have hte := taskEntries_payloads g g.tasks []
  have ew1 : endsWithM "_dag_id" "_date" = false := rfl
  have ew2 : endsWithM "fileloc" "_date" = false := rfl
  have ew3 : endsWithM "start_date" "_date" = true := rfl
  have ew4 : endsWithM "end_date" "_date" = true := rfl
  rcases hsd : g.startD with _ | ⟨o1, ts1⟩ <;> rcases hed : g.endD with _ | ⟨o2, ts2⟩ <;>
    simp [deserialize_dag, dagPayload, dagShellFor, mkDagShell, dagLoop, dagAssemble,
      setNones, keysOf, dagSerializedFields, dagDecoratedFields, dagCtorDefaults, setA,
      lookupA, lookupD, jvalToPy, asDatetime, dagDateEntry, dagDecAttrs, dagDecDate,
      tdEntries, hsd, hed, hte, ew1, ew2, ew3, ew4, Except.bind] <;> rfl

/-- Date inheritance at value level: a None task date receives the graph
date, any other value stays. -/
def postDateV (dagv : PyVal) : PyVal → PyVal
  | .pnone => dagv
  | w => w

/-- The attribute layout every decoded node keeps throughout
post-processing: only the flagged slots (upstream set, the two dates) ever
change, always in place. -/
def entryAttrsV (tid : String) (ups ds : List PyVal) (v1 v2 : PyVal) : Attrs :=
  [("task_id", 0, .pstr tid), ("_upstream_task_ids", 0, .pset ups),
   ("_downstream_task_ids", 0, .pset ds),
   ("start_date", 0, v1), ("end_date", 0, v2),
   ("subdag", 0, .pnone), ("operator_extra_links", 0, .plist []),
   ("_task_type", 0, .pstr "Op"), ("_task_module", 0, .pstr "mod")]

/-- A decoded node in canonical layout, with the graph-linked flag. -/
def entryOpV (tid : String) (hd : Bool) (ups ds : List PyVal) (v1 v2 : PyVal) : PyVal :=
  .pop "SerializedBaseOperator" "airflow.serialization.serialized_objects"
    hd [] (entryAttrsV tid ups ds v1 v2)

theorem postDateV_idem (sv v : PyVal) :
    postDateV sv (postDateV sv v) = postDateV sv v := by
  cases v <;> try rfl
  cases sv <;> rfl

theorem addUpstream_entryV (tid : String) (hd : Bool) (ups ds : List PyVal)
    (v1 v2 : PyVal) (k : String) :
    addUpstream (entryOpV tid hd ups ds v1 v2) k =
      .ok (entryOpV tid hd (setInsert ups (.pstr k)) ds v1 v2) := rfl

theorem copyDate1_start (A : Attrs) (sv : PyVal)
    (hA1 : lookupA A "start_date" = some (0, sv))
    (tid : String) (ups ds : List PyVal) (v1 v2 : PyVal) :
    copyDate1 A (entryAttrsV tid ups ds v1 v2) "start_date" =
      .ok (entryAttrsV tid ups ds (postDateV sv v1) v2) := by
  cases v1 <;> simp [copyDate1, lookupA, entryAttrsV, setA, postDateV, hA1]

theorem copyDate1_end (A : Attrs) (ev : PyVal)
    (hA2 : lookupA A "end_date" = some (0, ev))
    (tid : String) (ups ds : List PyVal) (v1 v2 : PyVal) :
    copyDate1 A (entryAttrsV tid ups ds v1 v2) "end_date" =
      .ok (entryAttrsV tid ups ds v1 (postDateV ev v2)) := by
  cases v2 <;> simp [copyDate1, lookupA, entryAttrsV, setA, postDateV, hA2]

/-- Per-task post-processing on a canonical node: set the graph link,
inherit unset dates, leave everything else. -/
theorem postTask_entryV (A : Attrs) (sv ev : PyVal)
    (hA1 : lookupA A "start_date" = some (0, sv))
    (hA2 : lookupA A "end_date" = some (0, ev))
    (tid : String) (hd : Bool) (ups ds : List PyVal) (v1 v2 : PyVal) :
    postTask A (entryOpV tid hd ups ds v1 v2) =
      .ok (entryOpV tid true ups ds (postDateV sv v1) (postDateV ev v2)) := by
  show Except.bind (copyDate1 A (entryAttrsV tid ups ds v1 v2) "start_date") _ = _
  rw [copyDate1_start A sv hA1]
  show Except.bind (copyDate1 A (entryAttrsV tid ups ds (postDateV sv v1) v2) "end_date") _ = _
  rw [copyDate1_end A ev hA2]
  rfl

theorem tid_inj_of_nodup (L : List OpData) (hnd : (L.map OpData.tid).Nodup) :
    ∀ u ∈ L, ∀ u2 ∈ L, u.tid = u2.tid → u = u2 := by
  induction L with
  | nil => intro u hu; cases hu
  | cons a r ih =>
      rw [List.map_cons, List.nodup_cons] at hnd
      intro u hu u2 hu2 he
      cases hu with
      | head =>
          cases hu2 with
          | head => rfl
          | tail _ h2 => exact absurd (List.mem_map.mpr ⟨u2, h2, he.symm⟩) hnd.1
      | tail _ h1 =>
          cases hu2 with
          | head => exact absurd (List.mem_map.mpr ⟨u, h1, he⟩) hnd.1
          | tail _ h2 => exact ih hnd.2 u h1 u2 h2 he

theorem lookupP_map (L : List OpData) (F : OpData → PyVal) (k : String)
    (hnd : (L.map OpData.tid).Nodup) (u0 : OpData) (hu0 : u0 ∈ L) (ht : u0.tid = k) :
    lookupP (L.map (fun u => (u.tid, F u))) k = some (F u0) := by
  induction L with
  | nil => cases hu0
  | cons a r ih =>
      rw [List.map_cons, List.nodup_cons] at hnd
      rw [List.map_cons, lookupP]
      by_cases hk : a.tid = k
      · rw [if_pos hk]
        cases hu0 with
        | head => rfl
        | tail _ h2 =>
            exact absurd (List.mem_map.mpr ⟨u0, h2, ht.trans hk.symm⟩) hnd.1
      · rw [if_neg hk]
        cases hu0 with
        | head => exact absurd ht hk
        | tail _ h2 => exact ih hnd.2 h2

theorem setP_map (L : List OpData) (F F2 : OpData → PyVal) (k : String) (v : PyVal)
    (hnd : (L.map OpData.tid).Nodup) (hex : ∃ u ∈ L, u.tid = k)
    (h1 : ∀ u ∈ L, u.tid = k → F2 u = v)
    (h2 : ∀ u ∈ L, u.tid ≠ k → F2 u = F u) :
    setP (L.map (fun u => (u.tid, F u))) k v = L.map (fun u => (u.tid, F2 u)) := by
  induction L with
  | nil => obtain ⟨u, hu, _⟩ := hex; cases hu
  | cons a r ih =>
      rw [List.map_cons, List.nodup_cons] at hnd
      rw [List.map_cons, List.map_cons, setP]
      by_cases hk : a.tid = k
      · rw [if_pos hk, h1 a (by simp) hk]
        have : r.map (fun u => (u.tid, F u)) = r.map (fun u => (u.tid, F2 u)) := by
          refine List.map_congr_left (fun u hu => ?_)
          have hne : u.tid ≠ k := fun he =>
            hnd.1 (List.mem_map.mpr ⟨u, hu, he.trans hk.symm⟩)
          rw [h2 u (by simp [hu]) hne]
        rw [this]
      · rw [if_neg hk, h2 a (by simp) hk]
        have hex2 : ∃ u ∈ r, u.tid = k := by
          obtain ⟨u, hu, he⟩ := hex
          cases hu with
          | head => exact absurd he hk
          | tail _ h3 => exact ⟨u, h3, he⟩
        rw [ih hnd.2 hex2 (fun u hu he => h1 u (by simp [hu]) he)
          (fun u hu he => h2 u (by simp [hu]) he)]

theorem setP_append_of_absent (a : List (String × PyVal)) (k : String) (v : PyVal)
    (h : ¬ k ∈ a.map Prod.fst) : setP a k v = a ++ [(k, v)] := by
  induction a with
  | nil => rfl
  | cons h0 t ih =>
      obtain ⟨k0, v0⟩ := h0
      rw [List.map_cons, List.mem_cons] at h
      push_neg at h
      rw [setP, if_neg (fun he => h.1 he.symm), ih h.2]
      rfl

/-- With pairwise-distinct keys, building the task dictionary inserts each
decoded node in declaration order. -/
theorem tdEntries_of_nodup (g : DagData) (hnd : (g.tasks.map OpData.tid).Nodup) :
    tdEntries g = g.tasks.map (fun u => (u.tid, decodedOp g u)) := by
  have main : ∀ (l : List OpData) (acc : List (String × PyVal)),
      (acc.map Prod.fst ++ l.map OpData.tid).Nodup →
      l.foldl (fun a t => setP a t.tid (decodedOp g t)) acc =
        acc ++ l.map (fun u => (u.tid, decodedOp g u)) := by
    intro l
    induction l with
    | nil => intro acc _; simp
    | cons u r ih =>
        intro acc hn
        have hknotin : ¬ u.tid ∈ acc.map Prod.fst := by
          intro hmem
          have := (List.nodup_append.mp hn).2.2
          exact this hmem (by simp)
        rw [List.foldl_cons, setP_append_of_absent acc u.tid (decodedOp g u) hknotin,
          ih (acc ++ [(u.tid, decodedOp g u)]) (by simpa using hn)]
        simp
  simpa using main g.tasks [] (by simpa using hnd)

/-- The canonical shape every task-dictionary entry keeps during
post-processing: a decoded node whose graph link and dates are determined
by whether its key has been processed, and whose upstream set is whatever
the rebuild loop has accumulated. -/
def entOf (g : DagData) (u : OpData) (hd : Bool) (ups : List PyVal) : PyVal :=
  entryOpV u.tid hd ups (dsSetOf u.downstream)
    (if hd then postDateV (dagDecDate g.startD) (decDate g "start_date" u.startD)
     else decDate g "start_date" u.startD)
    (if hd then postDateV (dagDecDate g.endD) (decDate g "end_date" u.endD)
     else decDate g "end_date" u.endD)

theorem decodedOp_entOf (g : DagData) (u : OpData) :
    decodedOp g u = entOf g u false [] := rfl

theorem addUpstream_entOf (g : DagData) (u : OpData) (hd : Bool)
    (ups : List PyVal) (k : String) :
    addUpstream (entOf g u hd ups) k =
      .ok (entOf g u hd (setInsert ups (.pstr k))) := rfl

theorem postTask_entOf (g : DagData) (A : Attrs)
    (hA1 : lookupA A "start_date" = some (0, dagDecDate g.startD))
    (hA2 : lookupA A "end_date" = some (0, dagDecDate g.endD))
    (u : OpData) (hd : Bool) (ups : List PyVal) :
    postTask A (entOf g u hd ups) = .ok (entOf g u true ups) := by
  rw [entOf, entOf,
    postTask_entryV A (dagDecDate g.startD) (dagDecDate g.endD) hA1 hA2]
  cases hd <;> simp [postDateV_idem]

/-- The upstream-rebuild inner loop preserves the canonical state shape:
it only enlarges upstream sets of entries named by the processed keys. -/
theorem addUps_map (g : DagData) (L : List OpData)
    (hnd : (L.map OpData.tid).Nodup) :
    ∀ (ds : List PyVal) (d : String → Bool) (upsF : String → List PyVal),
      (∀ x ∈ ds, ∃ u ∈ L, x = .pstr u.tid) →
      ∃ upsF2 : String → List PyVal,
        addUps (L.map (fun u => (u.tid, entOf g u (d u.tid) (upsF u.tid)))) ds =
          .ok (L.map (fun u => (u.tid, entOf g u (d u.tid) (upsF2 u.tid)))) := by
  intro ds
  induction ds with
  | nil => intro d upsF _; exact ⟨upsF, rfl⟩
  | cons x rest ih =>
      intro d upsF hx
      obtain ⟨u0, hu0, hxe⟩ := hx x (by simp)
      subst hxe
      have hl := lookupP_map L (fun u => entOf g u (d u.tid) (upsF u.tid)) u0.tid hnd u0 hu0 rfl
      have hsp : setP (L.map (fun u => (u.tid, entOf g u (d u.tid) (upsF u.tid)))) u0.tid
          (entOf g u0 (d u0.tid) (setInsert (upsF u0.tid) (.pstr u0.tid))) =
          L.map (fun u => (u.tid, entOf g u (d u.tid)
            (if u.tid = u0.tid then setInsert (upsF u.tid) (.pstr u0.tid) else upsF u.tid))) := by
        refine setP_map L _ _ u0.tid _ hnd ⟨u0, hu0, rfl⟩ ?_ ?_
        · intro u hu he
          have hEq := tid_inj_of_nodup L hnd u hu u0 hu0 he
          subst hEq
          simp
        · intro u hu he
          simp [he]
      obtain ⟨upsF2, hfin⟩ := ih d
        (fun s => if s = u0.tid then setInsert (upsF s) (.pstr u0.tid) else upsF s)
        (fun y hy => hx y (by simp [hy]))
      refine ⟨upsF2, ?_⟩
      have h1 : addUps (L.map (fun u => (u.tid, entOf g u (d u.tid) (upsF u.tid))))
          (.pstr u0.tid :: rest) =
          addUps (L.map (fun u => (u.tid, entOf g u (d u.tid)
            (if u.tid = u0.tid then setInsert (upsF u.tid) (.pstr u0.tid) else upsF u.tid)))) rest := by
        simp only [addUps, hl, addUpstream_entOf]
        show addUps (setP (L.map (fun u => (u.tid, entOf g u (d u.tid) (upsF u.tid)))) u0.tid
          (entOf g u0 (d u0.tid) (setInsert (upsF u0.tid) (.pstr u0.tid)))) rest = _
        rw [hsp]
      rw [h1]
      exact hfin

/-- The post-processing loop on a canonical state: every named key gets
its node linked to the graph and its unset dates inherited; upstream sets
change only as the rebuild loop dictates; the loop always succeeds. -/
theorem postLoop_map (g : DagData) (A : Attrs)
    (hA1 : lookupA A "start_date" = some (0, dagDecDate g.startD))
    (hA2 : lookupA A "end_date" = some (0, dagDecDate g.endD))
    (L : List OpData) (hnd : (L.map OpData.tid).Nodup)
    (hds : ∀ u ∈ L, ∀ k ∈ u.downstream, ∃ u2 ∈ L, u2.tid = k) :
    ∀ (ks : List String) (d : String → Bool) (upsF : String → List PyVal),
      (∀ k ∈ ks, ∃ u ∈ L, u.tid = k) →
      ∃ upsF2 : String → List PyVal,
        postLoop A (L.map (fun u => (u.tid, entOf g u (d u.tid) (upsF u.tid)))) ks =
          .ok (L.map (fun u =>
            (u.tid, entOf g u (ks.contains u.tid || d u.tid) (upsF2 u.tid)))) := by
  intro ks
  induction ks with
  | nil =>
      intro d upsF _
      exact ⟨upsF, by simp [postLoop]⟩
  | cons k rest ih =>
      intro d upsF hk
      obtain ⟨u0, hu0, ht0⟩ := hk k (by simp)
      subst ht0
      have hl := lookupP_map L (fun u => entOf g u (d u.tid) (upsF u.tid)) u0.tid hnd u0 hu0 rfl
      have hsp : setP (L.map (fun u => (u.tid, entOf g u (d u.tid) (upsF u.tid)))) u0.tid
          (entOf g u0 true (upsF u0.tid)) =
          L.map (fun u => (u.tid,
            entOf g u (if u.tid = u0.tid then true else d u.tid) (upsF u.tid))) := by
        refine setP_map L _ _ u0.tid _ hnd ⟨u0, hu0, rfl⟩ ?_ ?_
        · intro u hu he
          have hEq := tid_inj_of_nodup L hnd u hu u0 hu0 he
          subst hEq
          simp
        · intro u hu he
          simp [he]
      have hmem : ∀ x ∈ dsSetOf u0.downstream, ∃ u ∈ L, x = PyVal.pstr u.tid := by
        intro x hxm
        rcases mem_foldl_setInsert (u0.downstream.map .pstr) [] x hxm with h | h
        · cases h
        · obtain ⟨kd, hkd, hxe⟩ := List.mem_map.mp h
          obtain ⟨u2, hu2, ht2⟩ := hds u0 hu0 kd hkd
          exact ⟨u2, hu2, by rw [← hxe, ht2]⟩
      obtain ⟨upsF2, hadd⟩ := addUps_map g L hnd (dsSetOf u0.downstream)
        (fun s => if s = u0.tid then true else d s) upsF hmem
      obtain ⟨upsF3, hpost⟩ := ih (fun s => if s = u0.tid then true else d s) upsF2
        (fun y hy => hk y (by simp [hy]))
      refine ⟨upsF3, ?_⟩
      have h1 : postLoop A (L.map (fun u => (u.tid, entOf g u (d u.tid) (upsF u.tid))))
          (u0.tid :: rest) =
          Except.bind (addUps (L.map (fun u => (u.tid,
              entOf g u (if u.tid = u0.tid then true else d u.tid) (upsF u.tid))))
            (dsSetOf u0.downstream))
            (fun st2 => postLoop A st2 rest) := by
        simp only [postLoop, hl, postTask_entOf g A hA1 hA2]
        show Except.bind (addUps (setP
            (L.map (fun u => (u.tid, entOf g u (d u.tid) (upsF u.tid)))) u0.tid
            (entOf g u0 true (upsF u0.tid))) (dsSetOf u0.downstream)) _ = _
        rw [hsp]
      rw [h1, hadd]
      show postLoop A (L.map (fun u => (u.tid,
        entOf g u (if u.tid = u0.tid then true else d u.tid) (upsF2 u.tid)))) rest = _
      rw [hpost]
      refine congrArg Except.ok (List.map_congr_left (fun u _ => ?_))
      by_cases h : u.tid = u0.tid <;> simp [h, List.contains_cons]

theorem lookupD_dateEntry_skip (k k2 : String) (ga : Attrs) (td : Option (Nat × Int))
    (rest : JObj) (hne : ¬ k = k2) :
    lookupD (dateEntry k ga td ++ rest) k2 = lookupD rest k2 := by
  rcases td with _ | ⟨o, ts⟩
  · rfl
  · rw [dateEntry]
    by_cases hc : opIsExcluded opCtorDefaults true ga k (o + 1) (.pdatetime ts) = true
    · simp [hc]
    · simp [hc, lookupD, hne]

/-- C8: date inheritance.  For a generated graph in which node t's date
field da (start_date or end_date) is the identical date object (same
object id, same timestamp) as the graph's same-named field, the encoder
omits da from the node's payload, and decoding the encoded graph yields a
decoded graph whose node t carries exactly the graph's date value in da:
the graph value is copied down during post-processing because the node's
own decoded value is None. -/
theorem c8_date_inheritance (g : DagData) (t : OpData) (da : String) (o : Nat) (ts : Int)
    (hda : da = "start_date" ∨ da = "end_date")
    (ht : t ∈ g.tasks)
    (hnd : (g.tasks.map OpData.tid).Nodup)
    (hdown : ∀ u ∈ g.tasks, ∀ k ∈ u.downstream, ∃ u2 ∈ g.tasks, u2.tid = k)
    (hidt : (if da = "start_date" then t.startD else t.endD) = some (o, ts))
    (hidg : (if da = "start_date" then g.startD else g.endD) = some (o, ts)) :
    serialize (mkOpV g t) = .jobj (opPayload g t) ∧
    lookupD (opPayload g t) da = none ∧
    ∃ D : Attrs, (serialize_dag (mkDagAttrs g)).bind deserialize_dag = .ok (.pdag D) ∧
      opAttrOf D t.tid da = some (.pdatetime ts) ∧
      dagAttrOf D da = some (.pdatetime ts) := by
  have hops := serialize_mkOpV g t
  have hs : serialize_dag (mkDagAttrs g) = .ok (.jobj (dagPayload g)) := serialize_dag_mkDag g
  have hstate : tdEntries g = g.tasks.map (fun u => (u.tid, entOf g u false [])) := by
    rw [tdEntries_of_nodup g hnd]
    rfl
  obtain ⟨upsF2, hpl⟩ := postLoop_map g
    (dagDecAttrs g (g.tasks.map (fun u => (u.tid, entOf g u false []))))
    rfl rfl g.tasks hnd hdown (g.tasks.map OpData.tid)
    (fun _ => false) (fun _ => [])
    (fun k hk2 => by obtain ⟨u, hu, he⟩ := List.mem_map.mp hk2; exact ⟨u, hu, he⟩)
  have hfin2 : postLoop (dagDecAttrs g (g.tasks.map (fun u => (u.tid, entOf g u false []))))
      (g.tasks.map (fun u => (u.tid, entOf g u false [])))
      (g.tasks.map OpData.tid) =
      .ok (g.tasks.map (fun u => (u.tid, entOf g u true (upsF2 u.tid)))) := by
    refine hpl.trans (congrArg Except.ok (List.map_congr_left (fun u hu => ?_)))
    have hc : (g.tasks.map OpData.tid).contains u.tid = true :=
      List.elem_iff.mpr (List.mem_map.mpr ⟨u, hu, rfl⟩)
    rw [hc]
    rfl
  have hdec : deserialize_dag (.jobj (dagPayload g)) =
      .ok (.pdag (dagDecAttrs g
        (g.tasks.map (fun u => (u.tid, entOf g u true (upsF2 u.tid)))))) := by
    rw [deserialize_dag_payload g, hstate]
    have hkeys : (g.tasks.map (fun u => (u.tid, entOf g u false []))).map Prod.fst =
        g.tasks.map OpData.tid := by simp
    rw [hkeys, hfin2]
    rfl
  have hbind : (serialize_dag (mkDagAttrs g)).bind deserialize_dag =
      .ok (.pdag (dagDecAttrs g
        (g.tasks.map (fun u => (u.tid, entOf g u true (upsF2 u.tid)))))) := by
    rw [hs]
    exact hdec
  have hlookt : lookupP (g.tasks.map (fun u => (u.tid, entOf g u true (upsF2 u.tid)))) t.tid =
      some (entOf g t true (upsF2 t.tid)) :=
    lookupP_map g.tasks (fun u => entOf g u true (upsF2 u.tid)) t.tid hnd t ht rfl
  have htd0 : taskDictOf (dagDecAttrs g
      (g.tasks.map (fun u => (u.tid, entOf g u true (upsF2 u.tid))))) =
      some (g.tasks.map (fun u => (u.tid, entOf g u true (upsF2 u.tid)))) := rfl
  rcases hda with h | h <;> subst h
  · simp at hidt hidg
    have hexc : opIsExcluded opCtorDefaults true (dagScalarAttrs g) "start_date" (o + 1)
        (.pdatetime ts) = true := by
      have ew : endsWithM "start_date" "_date" = true := rfl
      simp [opIsExcluded, isNoneV, dagScalarAttrs, lookupA, dateAttr, hidg, ew]
    refine ⟨hops, ?_, ⟨dagDecAttrs g
      (g.tasks.map (fun u => (u.tid, entOf g u true (upsF2 u.tid)))), hbind, ?_, ?_⟩⟩
    · rw [opPayload, lookupD, if_neg (by decide : ¬ ("task_id" = "start_date")),
        hidt, dateEntry, if_pos hexc, List.nil_append,
        lookupD_dateEntry_skip "end_date" "start_date" _ _ _ (by decide)]
      rfl
    · rw [opAttrOf, htd0]
      simp only [hlookt]
      simp only [entOf, entryOpV]
      simp [entryAttrsV, lookupA, decDate, postDateV, dagDecDate, hidt, hidg, hexc]
    · simp [dagAttrOf, dagDecAttrs, lookupA, dagDecDate, hidg]
  · simp at hidt hidg
    have hexc : opIsExcluded opCtorDefaults true (dagScalarAttrs g) "end_date" (o + 1)
        (.pdatetime ts) = true := by
      have ew : endsWithM "end_date" "_date" = true := rfl
      simp [opIsExcluded, isNoneV, dagScalarAttrs, lookupA, dateAttr, hidg, ew]
    refine ⟨hops, ?_, ⟨dagDecAttrs g
      (g.tasks.map (fun u => (u.tid, entOf g u true (upsF2 u.tid)))), hbind, ?_, ?_⟩⟩
    · rw [opPayload, lookupD, if_neg (by decide : ¬ ("task_id" = "end_date")),
        lookupD_dateEntry_skip "start_date" "end_date" _ _ _ (by decide),
        hidt, dateEntry, if_pos hexc, List.nil_append]
      rfl
    · rw [opAttrOf, htd0]
      simp only [hlookt]
      simp only [entOf, entryOpV]
      simp [entryAttrsV, lookupA, decDate, postDateV, dagDecDate, hidt, hidg, hexc]
    · simp [dagAttrOf, dagDecAttrs, lookupA, dagDecDate, hidg]

/-- A concrete instance for the date-inheritance claim: one node x whose
start_date is the identical date object as the graph's. -/
def gw8 : DagData := ⟨"gw", "w.py", some (7, 100), none, [⟨"x", some (7, 100), none, []⟩]⟩

/-- Witness for c8_date_inheritance at gw8 and its node x. -/
theorem c8_date_inheritance_witness :
    serialize (mkOpV gw8 ⟨"x", some (7, 100), none, []⟩) =
      .jobj (opPayload gw8 ⟨"x", some (7, 100), none, []⟩) ∧
    lookupD (opPayload gw8 ⟨"x", some (7, 100), none, []⟩) "start_date" = none ∧
    ∃ D : Attrs, (serialize_dag (mkDagAttrs gw8)).bind deserialize_dag = .ok (.pdag D) ∧
      opAttrOf D "x" "start_date" = some (.pdatetime 100) ∧
      dagAttrOf D "start_date" = some (.pdatetime 100) :=
  c8_date_inheritance gw8 ⟨"x", some (7, 100), none, []⟩ "start_date" 7 100
    (Or.inl rfl) (by simp [gw8]) (by simp [gw8]) (by simp [gw8]) (by simp [gw8])
    (by simp [gw8])
